import Mathlib

/-!
# Crypi price chart: candle series, moving averages and the live merge

A shallow embedding of `src/components/PriceChart.js` and of the sanitising
step of `src/pages/api/wallet/index.js`.

Numbers: a JavaScript number is modelled as an exact rational extended with
`NaN`, `Infinity` and `-Infinity` (`JsNum`).  Binary rounding of IEEE doubles and
the sign of zero are not modelled; every operation is the exact one.  The one
zero of the model divides like `+0`; where the sign of an infinity would depend
on the sign of a zero, the theorems leave that sign open.

Asynchrony: one run of the chart effect is a state (`World`) and a step function
over the events the platform can deliver to it (`Event`, `step`): the settling
of the load, socket events, timer expiry and the cleanup.
-/

namespace Crypi

/-! ## JavaScript numbers -/

/-- A JavaScript number: a finite value (kept exact) or one of the three
special values. -/
inductive JsNum where
  | nan
  | posInf
  | negInf
  | fin (q : ℚ)
  deriving DecidableEq

namespace JsNum

/-- The JavaScript `+` on numbers. -/
def add : JsNum → JsNum → JsNum
  | fin a, fin b => fin (a + b)
  | nan, _ => nan
  | _, nan => nan
  | posInf, negInf => nan
  | negInf, posInf => nan
  | posInf, _ => posInf
  | _, posInf => posInf
  | negInf, _ => negInf
  | _, negInf => negInf

/-- Unary minus. -/
def neg : JsNum → JsNum
  | fin a => fin (-a)
  | nan => nan
  | posInf => negInf
  | negInf => posInf

/-- The JavaScript `-` on numbers. -/
def sub (x y : JsNum) : JsNum := add x (neg y)

/-- An infinity of the given sign (`true` is negative). -/
def inf (negative : Bool) : JsNum := if negative then negInf else posInf

/-- The sign of a number that is not `NaN`: `none` for zero, else whether it
is negative. -/
def sign? : JsNum → Option Bool
  | fin a => if a = 0 then none else some (decide (a < 0))
  | posInf => some false
  | negInf => some true
  | nan => none

/-- The JavaScript `*` on numbers. -/
def mul : JsNum → JsNum → JsNum
  | nan, _ => nan
  | _, nan => nan
  | fin a, fin b => fin (a * b)
  | x, y =>
    match sign? x, sign? y with
    | some s, some t => inf (s != t)
    | _, _ => nan

/-- The JavaScript `/` on numbers: a finite non-zero value divided by zero is
an infinity, `0 / 0` is `NaN`.  The zero of the model stands for `+0`: a division
by `-0` gives the infinity of the other sign in JavaScript. -/
def div : JsNum → JsNum → JsNum
  | nan, _ => nan
  | _, nan => nan
  | fin a, fin b =>
    if b = 0 then (if a = 0 then nan else inf (decide (a < 0))) else fin (a / b)
  | fin _, _ => fin 0
  | x, fin b => if b < 0 then neg x else x
  | _, _ => nan

/-- The JavaScript `>=` on numbers (false as soon as one side is `NaN`). -/
def ge : JsNum → JsNum → Bool
  | nan, _ => false
  | _, nan => false
  | fin a, fin b => decide (b ≤ a)
  | posInf, _ => true
  | _, negInf => true
  | _, _ => false

/-- The function `Math.min` on two numbers. -/
def min (x y : JsNum) : JsNum :=
  match x, y with
  | nan, _ => nan
  | _, nan => nan
  | _, _ => if ge x y then y else x

/-- The function `Math.max` on two numbers. -/
def max (x y : JsNum) : JsNum :=
  match x, y with
  | nan, _ => nan
  | _, nan => nan
  | _, _ => if ge x y then x else y

/-- A natural number as a JavaScript number. -/
def ofNat (n : Nat) : JsNum := fin (n : ℚ)

instance : Zero JsNum := ⟨fin 0⟩
instance : Add JsNum := ⟨add⟩

/-- Addition of JavaScript numbers is a commutative monoid with zero `fin 0`:
the order in which a sum is accumulated does not matter in this model. -/
instance : AddCommMonoid JsNum where
  add := add
  zero := fin 0
  add_assoc := fun x y z => by
    show add (add x y) z = add x (add y z)
    cases x <;> cases y <;> cases z <;> simp [add, add_assoc]
  zero_add := fun x => by
    show add (fin 0) x = x
    cases x <;> simp [add]
  add_zero := fun x => by
    show add x (fin 0) = x
    cases x <;> simp [add]
  add_comm := fun x y => by
    show add x y = add y x
    cases x <;> cases y <;> simp [add, add_comm]
  nsmul := nsmulRec

end JsNum

/-! ## Arrays -/

/-- The clamping of a relative index done by `Array.prototype.slice`: a
negative index counts from the end, and the result stays within `0 .. len`. -/
def relIndex (len : Nat) (k : Int) : Nat :=
  if k < 0 then (len + k).toNat else Nat.min k.toNat len

/-- The array method `xs.slice(start, end)`. -/
def jsSlice {α : Type} (xs : List α) (start stop : Int) : List α :=
  let k := relIndex xs.length start
  let e := relIndex xs.length stop
  (xs.drop k).take (e - k)

/-- The array method `xs.slice(start)`. -/
def jsSliceFrom {α : Type} (xs : List α) (start : Int) : List α :=
  xs.drop (relIndex xs.length start)

/-! ## Candles -/

/-- A chart-ready candle, as built by `parseKline` / `parseWsKline`.  The two
moving-average properties are `none` while the property is missing on the
object, `some none` when it holds `null`, and `some (some x)` for a number. -/
structure Candle where
  time : String
  close : JsNum
  wick : JsNum × JsNum
  body : JsNum × JsNum
  volume : JsNum
  color : String
  sma7 : Option (Option JsNum) := none
  sma25 : Option (Option JsNum) := none
  deriving DecidableEq

/-- The function `computeSMA(candles, period)`: per index, `null` while fewer than `period`
candles are available, else the sum of the closes of the slice
`i - period + 1 .. i` (a left fold from 0) divided by `period`. -/
def computeSMA (candles : List Candle) (period : Nat) : List (Option JsNum) :=
  candles.mapIdx fun i _ =>
    if (i : Int) < (period : Int) - 1 then none
    else
      let sum := (jsSlice candles ((i : Int) - period + 1) ((i : Int) + 1)).foldl
        (fun s c => JsNum.add s c.close) (JsNum.fin 0)
      some (JsNum.div sum (JsNum.ofNat period))

/-- Attaching both moving averages to every candle:
`c.sma7 = sma7[i]; c.sma25 = sma25[i]` for each index `i`. -/
def attachSMA (next : List Candle) : List Candle :=
  let sma7 := computeSMA next 7
  let sma25 := computeSMA next 25
  next.mapIdx fun i c => { c with sma7 := sma7[i]?, sma25 := sma25[i]? }

/-- The `setCandles` updater of `ws.onmessage`: the series after one live
candle.  Every array and object it returns is freshly built (slice, spread,
`map` with an object spread), so `prev` itself is never modified. -/
def merge (prev : List Candle) (candle : Candle) : List Candle :=
  if prev.length ≠ 0 ∧ prev[prev.length - 1]?.map (·.time) = some candle.time then
    jsSlice prev 0 (-1) ++ [candle]
  else
    attachSMA (jsSliceFrom (prev ++ [candle]) (-20))

/-! ## Range profiles and normalisation -/

/-- One entry of `RANGES`. -/
structure RangeCfg where
  interval : String
  limit : Nat
  live : Bool
  deriving DecidableEq

/-- The table `RANGES` by its own entries; `none` is a key the object literal
does not define (see `objectPrototypeKeys` for the inherited ones). -/
def RANGES (range : String) : Option RangeCfg :=
  if range = "live" then some { interval := "1m", limit := 20, live := true }
  else if range = "1d" then some { interval := "15m", limit := 96, live := false }
  else if range = "1m" then some { interval := "1h", limit := 744, live := false }
  else if range = "1y" then some { interval := "1d", limit := 365, live := false }
  else if range = "5y" then some { interval := "3d", limit := 609, live := false }
  else none

/-- The property names that every object literal inherits from
`Object.prototype`.  For such a name `RANGES[range]` is an inherited function or
object: it is truthy, and `interval`, `limit` and `live` are `undefined` on it. -/
def objectPrototypeKeys : List String :=
  ["constructor", "hasOwnProperty", "isPrototypeOf", "propertyIsEnumerable",
   "toLocaleString", "toString", "valueOf", "__proto__", "__defineGetter__",
   "__defineSetter__", "__lookupGetter__", "__lookupSetter__"]

/-- The platform functions the chart code calls: `parseFloat`, the three
locale formatters applied to `new Date(ts)`, and `String.prototype.toUpperCase`. -/
structure Builtins where
  parseFloat : String → JsNum
  localeTime : Int → String
  localeMonthDay : Int → String
  localeYearMonth : Int → String
  toUpperCase : String → String

/-- The function `formatTime(ts, range)`. -/
def formatTime (b : Builtins) (ts : Int) (range : String) : String :=
  if range = "live" ∨ range = "1d" then b.localeTime ts
  else if range = "1m" then b.localeMonthDay ts
  else b.localeYearMonth ts

/-- A Binance REST kline array `d`: `d0` is the open time, `d1 .. d5` the
open, high, low, close and volume strings. -/
structure RawKline where
  d0 : Int
  d1 : String
  d2 : String
  d3 : String
  d4 : String
  d5 : String
  deriving DecidableEq

/-- A Binance WebSocket kline object `k`. -/
structure WsKline where
  t : Int
  o : String
  h : String
  l : String
  c : String
  v : String
  deriving DecidableEq

/-- The colour of a candle from its direction. -/
def upColor (up : Bool) : String := if up then "#4CAF50" else "#F44336"

/-- The function `parseKline(d, range)`: a REST kline as a candle. -/
def parseKline (b : Builtins) (d : RawKline) (range : String) : Candle :=
  let o := b.parseFloat d.d1
  let close := b.parseFloat d.d4
  let up := JsNum.ge close o
  { time := formatTime b d.d0 range
    close := close
    wick := (b.parseFloat d.d3, b.parseFloat d.d2)
    body := (JsNum.min o close, JsNum.max o close)
    volume := b.parseFloat d.d5
    color := upColor up }

/-- The function `parseWsKline(k)`: a WebSocket kline as a candle. -/
def parseWsKline (b : Builtins) (k : WsKline) : Candle :=
  let o := b.parseFloat k.o
  let close := b.parseFloat k.c
  let up := JsNum.ge close o
  { time := b.localeTime k.t
    close := close
    wick := (b.parseFloat k.l, b.parseFloat k.h)
    body := (JsNum.min o close, JsNum.max o close)
    volume := b.parseFloat k.v
    color := upColor up }

/-! ## `toFixed(2)` -/

/-- The string produced by `x.toFixed(2)`, by its content: one of the three
special strings, or a sign and a count of hundredths (`"-1.50"` is
`dec true 150`).  From `1e21` on JavaScript prints the same value in exponent
form; only the value is kept here. -/
inductive FixedStr where
  | nan
  | posInf
  | negInf
  | dec (negative : Bool) (hundredths : Nat)
  deriving DecidableEq

/-- The method `x.toFixed(2)`: the sign is split off, then the magnitude goes to the
nearest hundredth, the larger one on a tie. -/
def toFixed2 : JsNum → FixedStr
  | JsNum.nan => FixedStr.nan
  | JsNum.posInf => FixedStr.posInf
  | JsNum.negInf => FixedStr.negInf
  | JsNum.fin q => FixedStr.dec (decide (q < 0)) (Int.toNat ⌊|q| * 100 + 1 / 2⌋)

/-- The number a `toFixed` string converts to when used in arithmetic. -/
def FixedStr.toNumber : FixedStr → JsNum
  | FixedStr.nan => JsNum.nan
  | FixedStr.posInf => JsNum.posInf
  | FixedStr.negInf => JsNum.negInf
  | FixedStr.dec negative n => JsNum.fin ((if negative then -1 else 1) * (n : ℚ) / 100)

/-! ## The component state and the boot sequence -/

/-- A REST request issued by `loadCandles`, by the three values written into
the URL; `none` is a field that prints as `undefined`. -/
structure FetchRequest where
  symbol : String
  interval : Option String
  limit : Option Nat
  deriving DecidableEq

/-- The state of one `PriceChart`: the React state variables, the `cache` ref
and (as a ghost field) the list of REST requests issued so far. -/
structure ChartState where
  candles : List Candle := []
  loading : Bool := false
  error : Option String := none
  priceChange : Option FixedStr := none
  pctChange : Option FixedStr := none
  cache : String → Option (List Candle) := fun _ => none
  fetches : List FetchRequest := []

/-- The cache key of a selection. -/
def cacheKey (symbol range : String) : String := symbol ++ "-" ++ range

/-- How `loadCandles` leaves its synchronous first part: the cached series, a
pending fetch, or an exception (`RANGES[range]` is `undefined`). -/
inductive LoadStart where
  | resolved (data : List Candle)
  | pending (req : FetchRequest)
  | rejected

/-- The function `loadCandles` up to its first `await`: a cached series is returned as is
(every array is truthy); else the loading flag is raised and the request is
sent. -/
def loadCandlesStart (b : Builtins) (st : ChartState) (symbol range : String) :
    ChartState × LoadStart :=
  match st.cache (cacheKey symbol range) with
  | some data => (st, LoadStart.resolved data)
  | none =>
    match RANGES range with
    | none =>
      if range ∈ objectPrototypeKeys then
        let req : FetchRequest :=
          { symbol := b.toUpperCase symbol, interval := none, limit := none }
        ({ st with loading := true, fetches := st.fetches ++ [req] }, LoadStart.pending req)
      else ({ st with loading := true }, LoadStart.rejected)
    | some cfg =>
      let req : FetchRequest :=
        { symbol := b.toUpperCase symbol, interval := some cfg.interval,
          limit := some cfg.limit }
      ({ st with loading := true, fetches := st.fetches ++ [req] }, LoadStart.pending req)

/-- The function `loadCandles` after the response: `none` is a failed fetch or a body that
is not an array of klines; else the records are parsed, both averages are
attached, and the series is stored in the cache and returned. -/
def loadCandlesFinish (b : Builtins) (st : ChartState) (symbol range : String)
    (response : Option (List RawKline)) : ChartState × Option (List Candle) :=
  match response with
  | none => (st, none)
  | some raw =>
    let data := attachSMA (raw.map fun d => parseKline b d range)
    ({ st with cache := fun k => if k = cacheKey symbol range then some data else st.cache k },
      some data)

/-- A whole `loadCandles` call against a provider that answers at once. -/
def loadCandles (b : Builtins) (provider : FetchRequest → Option (List RawKline))
    (st : ChartState) (symbol range : String) : ChartState × Option (List Candle) :=
  match loadCandlesStart b st symbol range with
  | (st1, LoadStart.resolved data) => (st1, some data)
  | (st1, LoadStart.rejected) => (st1, none)
  | (st1, LoadStart.pending req) => loadCandlesFinish b st1 symbol range (provider req)

/-- The `.catch` callback of the boot sequence. -/
def onLoadFailed (active : Bool) (st : ChartState) : ChartState :=
  if active then { st with error := some "Failed to load data", loading := false } else st

/-- The `.then` callback of the boot sequence.  `Except.error` carries the state
at the point where the callback throws (`data[0]` is `undefined`); the boolean
of a normal return tells whether `connectWs()` was called. -/
def onLoaded (cfg : RangeCfg) (active : Bool) (st : ChartState) (data : List Candle) :
    Except ChartState (ChartState × Bool) :=
  if !active then Except.ok (st, false)
  else
    let st1 := { st with candles := data, loading := false }
    match data[0]?, data[data.length - 1]? with
    | some c0, some cl =>
      let first := c0.close
      let last := cl.close
      let change := toFixed2 (JsNum.sub last first)
      let pct := toFixed2 (JsNum.mul (JsNum.div change.toNumber first) (JsNum.ofNat 100))
      Except.ok ({ st1 with priceChange := some change, pctChange := some pct }, cfg.live)
    | _, _ => Except.error st1

/-- The chain `loadCandles().then(..).catch(..)` once `loadCandles` has settled
with `result` (`none`: rejected). -/
def bootSettle (cfg : RangeCfg) (active : Bool) (st : ChartState)
    (result : Option (List Candle)) : ChartState × Bool :=
  match result with
  | none => (onLoadFailed active st, false)
  | some data =>
    match onLoaded cfg active st data with
    | Except.ok r => r
    | Except.error st1 => (onLoadFailed active st1, false)

/-- The handler `ws.onmessage`.  `none` is a message whose JSON does not parse or
has no `k`: the handler throws before any setter runs. -/
def onmessage (b : Builtins) (st : ChartState) (msg : Option WsKline) : ChartState :=
  match msg with
  | none => st
  | some k => { st with candles := merge st.candles (parseWsKline b k), error := none }

/-! ## One run of the effect: subscription and teardown -/

/-- The value of `WebSocket.readyState`. -/
inductive ReadyState where
  | connecting
  | opened
  | closing
  | closed
  deriving DecidableEq

/-- The state of a timer made by `setTimeout`. -/
inductive TimerState where
  | pending
  | fired
  | cleared
  deriving DecidableEq

/-- The closure of one run of the effect for a selection: the variable `active`,
the promise of `loadCandles()` while its callbacks have not run, every
`WebSocket` built by `connectWs` (oldest first; the variable `ws` refers to the
last one, and is `null` when there is none) and every reconnect timer
(`reconnectTimer` refers to the last one). -/
structure Effect where
  symbol : String
  range : String
  active : Bool := true
  load : Option LoadStart := none
  sockets : List ReadyState := []
  timers : List TimerState := []

/-- The component together with the current run of its effect. -/
structure World where
  chart : ChartState
  eff : Effect

/-- The body of the effect for a non-empty `symbol`: the closure variables are
set up and `loadCandles()` runs to its first `await`. -/
def runEffect (b : Builtins) (st : ChartState) (symbol range : String) : World :=
  let r := loadCandlesStart b st symbol range
  { chart := r.1, eff := { symbol := symbol, range := range, load := some r.2 } }

/-- The function `connectWs`: a new socket is built and stored in `ws`. -/
def connectWs (e : Effect) : Effect :=
  { e with sockets := e.sockets ++ [ReadyState.connecting] }

/-- The callbacks chained on `loadCandles()` for the selected range.  With a
profile this is `bootSettle`.  On an inherited key `cfg.live` is `undefined`, so
no socket is opened.  When `RANGES[range]` is `undefined` the `.then` callback
of an active run throws at `cfg.live` after its setters, and the `.catch`
callback runs. -/
def bootChain (range : String) (active : Bool) (st : ChartState)
    (result : Option (List Candle)) : ChartState × Bool :=
  match RANGES range with
  | some cfg => bootSettle cfg active st result
  | none =>
    if range ∈ objectPrototypeKeys then
      bootSettle { interval := "", limit := 0, live := false } active st result
    else
      match result with
      | none => (onLoadFailed active st, false)
      | some data =>
        match onLoaded { interval := "", limit := 0, live := false } active st data with
        | Except.ok r => (onLoadFailed active r.1, false)
        | Except.error st1 => (onLoadFailed active st1, false)

/-- What can happen to a run of the effect: the promise of `loadCandles()`
settles (with the provider's answer when a fetch was pending), an event is
dispatched on the socket of index `i`, the timer of index `j` expires, or the
cleanup function returned by the effect runs. -/
inductive Event where
  | settle (response : Option (List RawKline))
  | wsOpen (i : Nat)
  | wsMessage (i : Nat) (msg : Option WsKline)
  | wsError (i : Nat)
  | wsClose (i : Nat)
  | timeout (j : Nat)
  | cleanup

/-- An array with `f` applied to its last element (nothing on an empty one). -/
def modifyLast {α : Type} (f : α → α) : List α → List α
  | [] => []
  | [a] => [f a]
  | a :: b :: t => a :: modifyLast f (b :: t)

/-- The method `ws.close()`: a socket that is connecting or open starts
closing. -/
def closeSocket : ReadyState → ReadyState
  | ReadyState.connecting => ReadyState.closing
  | ReadyState.opened => ReadyState.closing
  | s => s

/-- The function `clearTimeout`: a pending timer is cancelled. -/
def clearTimer : TimerState → TimerState
  | TimerState.pending => TimerState.cleared
  | t => t

/-- One event on a run of the effect.  The platform dispatches a message event
only on an open socket, an error or close event only on a socket that is not
closed yet, and runs a timer callback only while the timer is pending; the
handlers are those of `connectWs` and of the boot sequence. -/
def step (b : Builtins) (w : World) : Event → World
  | Event.settle response =>
    match w.eff.load with
    | none => w
    | some ls =>
      let r : ChartState × Option (List Candle) :=
        match ls with
        | LoadStart.resolved data => (w.chart, some data)
        | LoadStart.rejected => (w.chart, none)
        | LoadStart.pending _ =>
          loadCandlesFinish b w.chart w.eff.symbol w.eff.range response
      let r2 := bootChain w.eff.range w.eff.active r.1 r.2
      let e := { w.eff with load := none }
      { chart := r2.1, eff := if r2.2 then connectWs e else e }
  | Event.wsOpen i =>
    if w.eff.sockets[i]? = some ReadyState.connecting then
      { w with eff := { w.eff with sockets := w.eff.sockets.set i ReadyState.opened } }
    else w
  | Event.wsMessage i msg =>
    if w.eff.sockets[i]? = some ReadyState.opened then
      { w with chart := onmessage b w.chart msg }
    else w
  | Event.wsError i =>
    match w.eff.sockets[i]? with
    | none => w
    | some s =>
      if s = ReadyState.closed then w
      else { w with chart := { w.chart with error := some "Connection error — retrying..." } }
  | Event.wsClose i =>
    match w.eff.sockets[i]? with
    | none => w
    | some s =>
      if s = ReadyState.closed then w
      else
        let e := { w.eff with sockets := w.eff.sockets.set i ReadyState.closed }
        { w with eff := if e.active then { e with timers := e.timers ++ [TimerState.pending] }
                        else e }
  | Event.timeout j =>
    if w.eff.timers[j]? = some TimerState.pending then
      { w with eff := connectWs { w.eff with timers := w.eff.timers.set j TimerState.fired } }
    else w
  | Event.cleanup =>
    { w with eff := { w.eff with
        active := false
        timers := modifyLast clearTimer w.eff.timers
        sockets := modifyLast closeSocket w.eff.sockets } }

/-- A sequence of events, in order. -/
def run (b : Builtins) (w : World) (events : List Event) : World :=
  events.foldl (step b) w

/-- The keys `Object.keys(RANGES)`, in order: one range button is rendered for
each of them. -/
def rangeKeys : List String := ["live", "1d", "1m", "1y", "5y"]

/-- The first render of the chart for a non-empty `symbol`: `range` is `'1d'`,
the other state variables have their initial values, and the effect runs. -/
def mount (b : Builtins) (symbol : String) : World :=
  runEffect b {} symbol "1d"

/-- A request to select the range `r`.  A range is selected by the click
handler `setRange(r)` of its button, and buttons exist for the keys of `RANGES`
only: for any other identifier nothing can be clicked and nothing happens.  A
click on the current range hands `setRange` the current value, so nothing is
rendered again; otherwise the cleanup of the running effect runs and the
effect starts for the new range. -/
def selectRange (b : Builtins) (w : World) (r : String) : World :=
  if r ∈ rangeKeys then
    if r = w.eff.range then w
    else runEffect b (step b w Event.cleanup).chart w.eff.symbol r
  else w

/-- What can happen to the mounted chart: an event of the running effect, or a
request to select a range. -/
inductive Action where
  | event (ev : Event)
  | select (r : String)

/-- One action on the chart. -/
def act (b : Builtins) (w : World) : Action → World
  | Action.event ev => step b w ev
  | Action.select r => selectRange b w r

/-! ## The wallet endpoint (`src/pages/api/wallet/index.js`) -/

/-- The whitelist `VALID_SYMBOLS`. -/
def VALID_SYMBOLS : List String :=
  ["BTCUSDT", "ETHUSDT", "BNBUSDT", "ADAUSDT", "SOLUSDT",
   "XRPUSDT", "DOGEUSDT", "LTCUSDT", "XLMUSDT", "DOTUSDT"]

/-- An element `h` of the posted `holdings` array that is not `null`, by what
the handler reads of it: `symbol` is `h.symbol` when that is a string (`none`
for any other value, `undefined` included), and `amount` is the text
`parseFloat` works on, the string conversion of `h.amount`. -/
structure PostedHolding where
  symbol : Option String
  amount : String
  deriving DecidableEq

/-- An entry of the saved `holdings` list. -/
structure SavedHolding where
  symbol : Option String
  amount : JsNum
  deriving DecidableEq

/-- The expression `x || 0` on a number: `NaN` and zero are falsy. -/
def orZero : JsNum → JsNum
  | JsNum.nan => JsNum.fin 0
  | JsNum.fin q => if q = 0 then JsNum.fin 0 else JsNum.fin q
  | x => x

/-- The test `VALID_SYMBOLS.includes(h.symbol)`: only a string can be equal to
an element of the whitelist. -/
def validSymbol (h : PostedHolding) : Bool :=
  match h.symbol with
  | some s => VALID_SYMBOLS.contains s
  | none => false

/-- The `.filter(..)` of the handler.  An element that is `null` (here `none`)
makes the read of `h.symbol` throw: the result is `none` and nothing is
saved. -/
def filterValid : List (Option PostedHolding) → Option (List PostedHolding)
  | [] => some []
  | none :: _ => none
  | some h :: rest =>
    match filterValid rest with
    | none => none
    | some kept => some (if validSymbol h then h :: kept else kept)

/-- The list `sanitized` of the `POST` branch: the filter, then the `.map(..)`
to `{ symbol, amount }` with `Math.max(0, parseFloat(h.amount) || 0)`. -/
def sanitized (b : Builtins) (holdings : List (Option PostedHolding)) :
    Option (List SavedHolding) :=
  match filterValid holdings with
  | none => none
  | some kept =>
    some (kept.map fun h =>
      { symbol := h.symbol
        amount := JsNum.max (JsNum.fin 0) (orZero (b.parseFloat h.amount)) })

/-! ## Definitions used to state the properties -/

/-- The close of the candle at index `j` (`NaN` outside the series). -/
def closeAt (candles : List Candle) (j : Nat) : JsNum :=
  match candles[j]? with
  | some c => c.close
  | none => JsNum.nan

/-- A candle with the given label and finite close, as a tick or a kline whose
open, high, low and close coincide would be parsed. -/
def flatCandle (t : String) (c : ℚ) : Candle :=
  { time := t
    close := JsNum.fin c
    wick := (JsNum.fin c, JsNum.fin c)
    body := (JsNum.fin c, JsNum.fin c)
    volume := JsNum.fin 0
    color := "#4CAF50" }

/-- A candle without its moving-average properties. -/
def eraseSma (c : Candle) : Candle := { c with sma7 := none, sma25 := none }

/-- The decision rule of the series merger in the words of the specification:
replace the last element when the series is non-empty and its last label
equals the incoming one; otherwise append and keep the last `maxLen`
elements. -/
def mergeRule (maxLen : Nat) (currentSeries : List Candle) (incoming : Candle) : List Candle :=
  match currentSeries.getLast? with
  | some last =>
    if last.time = incoming.time then currentSeries.dropLast ++ [incoming]
    else (currentSeries ++ [incoming]).drop ((currentSeries ++ [incoming]).length - maxLen)
  | none => (currentSeries ++ [incoming]).drop ((currentSeries ++ [incoming]).length - maxLen)

/-- Six one-minute candles with closes 1 to 6. -/
def sixCandles : List Candle :=
  [flatCandle "09:01" 1, flatCandle "09:02" 2, flatCandle "09:03" 3, flatCandle "09:04" 4,
   flatCandle "09:05" 5, flatCandle "09:06" 6]

/-- Seven one-minute candles with closes 1 to 7. -/
def sevenCandles : List Candle := sixCandles ++ [flatCandle "09:07" 7]

/-- Twenty one-minute candles with closes 1 to 20: a full live window. -/
def twentyCandles : List Candle :=
  [flatCandle "09:01" 1, flatCandle "09:02" 2, flatCandle "09:03" 3, flatCandle "09:04" 4,
   flatCandle "09:05" 5, flatCandle "09:06" 6, flatCandle "09:07" 7, flatCandle "09:08" 8,
   flatCandle "09:09" 9, flatCandle "09:10" 10, flatCandle "09:11" 11, flatCandle "09:12" 12,
   flatCandle "09:13" 13, flatCandle "09:14" 14, flatCandle "09:15" 15, flatCandle "09:16" 16,
   flatCandle "09:17" 17, flatCandle "09:18" 18, flatCandle "09:19" 19, flatCandle "09:20" 20]

/-- The percent string reported when the first close is `+0`, read off the
last close: `NaN` when the rounded change is `NaN` or zero, else the infinity
of the sign of the change. -/
def pctOfZeroFirst (last : JsNum) : FixedStr :=
  match toFixed2 last with
  | FixedStr.dec negative n =>
    if n = 0 then FixedStr.nan else if negative then FixedStr.negInf else FixedStr.posInf
  | f => f

/-- A small instance of the platform functions on which the definitions can be
run: `parseFloat` reads unsigned decimal integers and gives `NaN` on any other
string, the formatters print the timestamp itself. -/
def plainBuiltins : Builtins :=
  { parseFloat := fun s =>
      if s.data ≠ [] ∧ s.data.all Char.isDigit then
        JsNum.ofNat (s.data.foldl (fun n c => 10 * n + (c.toNat - 48)) 0)
      else JsNum.nan
    localeTime := fun ts => toString ts
    localeMonthDay := fun ts => toString ts
    localeYearMonth := fun ts => toString ts
    toUpperCase := fun s => String.mk (s.data.map Char.toUpper) }

/-- One REST kline: open 10, high 12, low 9, close 11, volume 100. -/
def sampleKline : RawKline :=
  { d0 := 0, d1 := "10", d2 := "12", d3 := "9", d4 := "11", d5 := "100" }

/-- A kline whose close field is not a number. -/
def badKline : RawKline :=
  { d0 := 900000, d1 := "10", d2 := "12", d3 := "9", d4 := "abc", d5 := "100" }

/-- The WebSocket kline object with the field values of a REST kline. -/
def wsOfKline (d : RawKline) : WsKline :=
  { t := d.d0, o := d.d1, h := d.d2, l := d.d3, c := d.d4, v := d.d5 }

/-- A run that can no longer act: it is inactive, none of its sockets is
connecting or open, and none of its timers is pending. -/
def Quiet (e : Effect) : Prop :=
  e.active = false ∧
  (∀ (i : Nat) (s : ReadyState), e.sockets[i]? = some s →
    s = ReadyState.closing ∨ s = ReadyState.closed) ∧
  (∀ (j : Nat) (t : TimerState), e.timers[j]? = some t → t ≠ TimerState.pending)

/-- The shape every run keeps: all sockets but the last are closed; a pending
timer is the last one and then every socket is closed; and while the callbacks
of `loadCandles()` have not run there is neither a socket nor a timer. -/
def OneSocket (e : Effect) : Prop :=
  (∀ (i : Nat) (s : ReadyState), e.sockets[i]? = some s → i + 1 < e.sockets.length →
    s = ReadyState.closed) ∧
  (∀ j : Nat, e.timers[j]? = some TimerState.pending →
    j + 1 = e.timers.length ∧
    ∀ (i : Nat) (s : ReadyState), e.sockets[i]? = some s → s = ReadyState.closed) ∧
  (e.load.isSome = true → e.sockets = [] ∧ e.timers = [])

/-- The run of a selection after the events `before` and then its cleanup. -/
def tornDown (b : Builtins) (st : ChartState) (symbol range : String)
    (before : List Event) : World :=
  step b (run b (runEffect b st symbol range) before) Event.cleanup

/-! ## Moving averages -/

theorem foldl_close (l : List Candle) (a : JsNum) :
    l.foldl (fun s c => JsNum.add s c.close) a = a + (l.map (·.close)).sum := by
  induction l generalizing a with
  | nil => simp
  | cons c l ih =>
    simp only [List.foldl_cons, List.map_cons, List.sum_cons]
    rw [ih]
    show _ = a + (c.close + _)
    rw [← add_assoc]; rfl

theorem sum_Icc_eq (f : Nat → JsNum) (a b : Nat) :
    ∑ j in Finset.Icc a b, f j = ((List.range' a (b + 1 - a)).map f).sum := by
  rw [Nat.Icc_eq_range']
  simp [Finset.sum]

theorem map_close_window (candles : List Candle) (a p : Nat) (h : a + p ≤ candles.length) :
    ((candles.drop a).take p).map (·.close) = (List.range' a p).map (closeAt candles) := by
  apply List.ext_getElem
  · simp; omega
  · intro n h1 h2
    simp at h1 h2
    simp [closeAt, List.getElem_take, List.getElem_drop]
    have : a + n < candles.length := by omega
    simp [List.getElem?_eq_getElem this]

theorem sum_fin (s : Finset Nat) (q : Nat → ℚ) :
    ∑ j in s, JsNum.fin (q j) = JsNum.fin (∑ j in s, q j) := by
  induction s using Finset.induction_on with
  | empty => rfl
  | insert hx ih =>
    rw [Finset.sum_insert hx, Finset.sum_insert hx, ih]; rfl

theorem length_computeSMA (candles : List Candle) (period : Nat) :
    (computeSMA candles period).length = candles.length := by
  simp [computeSMA]

theorem getElem?_computeSMA (candles : List Candle) (period i : Nat)
    (hi : i < candles.length) :
    (computeSMA candles period)[i]? =
      some (if i + 1 < period then none
        else some (JsNum.div (((candles.drop (i + 1 - period)).take period).foldl
          (fun s c => JsNum.add s c.close) (JsNum.fin 0)) (JsNum.ofNat period))) := by
  unfold computeSMA
  rw [List.getElem?_mapIdx, List.getElem?_eq_getElem hi]
  simp only [Option.map_some']
  by_cases h : i + 1 < period
  · have : (i : Int) < (period : Int) - 1 := by omega
    simp [h, this]
  · have h1 : ¬ (i : Int) < (period : Int) - 1 := by omega
    have h2 : ¬ ((i : Int) - period + 1 < 0) := by omega
    have h3 : ¬ ((i : Int) + 1 < 0) := by omega
    have h4 : ((i : Int) - period + 1).toNat = i + 1 - period := by omega
    have h5 : ((i : Int) + 1).toNat = i + 1 := by omega
    have h6 : Nat.min (i + 1 - period) candles.length = i + 1 - period := by
      apply Nat.min_eq_left; omega
    have h7 : Nat.min (i + 1) candles.length = i + 1 := by
      apply Nat.min_eq_left; omega
    have h8 : i + 1 - (i + 1 - period) = period := by omega
    simp only [h, h1, if_false, jsSlice, relIndex, h2, h3, h4, h5, h6, h7, h8]

/-- C1: for a period of at least 1, `computeSMA` returns one entry per candle;
the entry at index `i` is `null` while `i < period - 1`, and otherwise it is the
sum of the closes at indices `i - period + 1 .. i` divided by `period`.  When
the closes are finite numbers `q j` this is the number
`(q (i - period + 1) + .. + q i) / period`. -/
theorem computeSMA_spec (candles : List Candle) (period : Nat) (hp : 1 ≤ period) :
    (computeSMA candles period).length = candles.length ∧
    (∀ i, i < candles.length → i + 1 < period →
      (computeSMA candles period)[i]? = some none) ∧
    (∀ i, i < candles.length → period ≤ i + 1 →
      (computeSMA candles period)[i]? = some (some (JsNum.div
        (∑ j in Finset.Icc (i + 1 - period) i, closeAt candles j) (JsNum.ofNat period)))) ∧
    (∀ q : Nat → ℚ, (∀ j, j < candles.length → closeAt candles j = JsNum.fin (q j)) →
      ∀ i, i < candles.length → period ≤ i + 1 →
        (computeSMA candles period)[i]? = some (some (JsNum.fin
          ((∑ j in Finset.Icc (i + 1 - period) i, q j) / period)))) := by
  have key : ∀ i, i < candles.length → period ≤ i + 1 →
      (computeSMA candles period)[i]? = some (some (JsNum.div
        (∑ j in Finset.Icc (i + 1 - period) i, closeAt candles j) (JsNum.ofNat period))) := by
    intro i hi hpi
    rw [getElem?_computeSMA candles period i hi, if_neg (by omega), foldl_close,
      map_close_window candles (i + 1 - period) period (by omega), sum_Icc_eq]
    have : i + 1 - (i + 1 - period) = period := by omega
    rw [this]
    congr 3
    exact zero_add _
  refine ⟨length_computeSMA candles period, ?_, key, ?_⟩
  · intro i hi hlt
    rw [getElem?_computeSMA candles period i hi, if_pos hlt]
  · intro q hq i hi hpi
    rw [key i hi hpi]
    have : ∑ j in Finset.Icc (i + 1 - period) i, closeAt candles j
        = ∑ j in Finset.Icc (i + 1 - period) i, JsNum.fin (q j) := by
      apply Finset.sum_congr rfl
      intro j hj
      rw [Finset.mem_Icc] at hj
      exact hq j (by omega)
    rw [this, sum_fin]
    have hne : (period : ℚ) ≠ 0 := by exact_mod_cast (by omega : period ≠ 0)
    simp [JsNum.div, JsNum.ofNat, hne]

/-- C1, at the series with closes 10, 12, 11 and period 2: the averages are
`null`, 11 and 11.5. -/
theorem computeSMA_spec_witness :
    1 ≤ 2 ∧
    computeSMA [flatCandle "a" 10, flatCandle "b" 12, flatCandle "c" 11] 2
      = [none, some (JsNum.fin 11), some (JsNum.fin (23 / 2))] := by
  have h := computeSMA_spec [flatCandle "a" 10, flatCandle "b" 12, flatCandle "c" 11] 2
    (by decide)
  refine ⟨by decide, ?_⟩
  obtain ⟨hlen, hnull, -, hfin⟩ := h
  have hq : ∀ j, j < [flatCandle "a" 10, flatCandle "b" 12, flatCandle "c" 11].length →
      closeAt [flatCandle "a" 10, flatCandle "b" 12, flatCandle "c" 11] j
        = JsNum.fin ((fun j => if j = 0 then 10 else if j = 1 then 12 else 11) j) := by
    intro j hj
    simp at hj
    interval_cases j <;> simp [closeAt, flatCandle]
  apply List.ext_getElem?
  intro i
  by_cases hi : i < 3
  · interval_cases i
    · rw [hnull 0 (by simp) (by decide)]; rfl
    · rw [hfin _ hq 1 (by simp) (by decide)]
      simp [Nat.Icc_eq_range', Finset.sum, List.range']
      norm_num
    · rw [hfin _ hq 2 (by simp) (by decide)]
      simp [Nat.Icc_eq_range', Finset.sum, List.range']
      norm_num
  · have h1 : (computeSMA [flatCandle "a" 10, flatCandle "b" 12, flatCandle "c" 11] 2).length ≤ i := by
      rw [hlen]; simp; omega
    rw [List.getElem?_eq_none h1, List.getElem?_eq_none (by simp; omega)]

/-! ## The live merge -/

theorem jsSlice_dropLast {α : Type} (xs : List α) : jsSlice xs 0 (-1) = xs.dropLast := by
  have h : ((xs.length : Int) + -1).toNat = xs.length - 1 := by omega
  simp [jsSlice, relIndex, h, List.dropLast_eq_take]

theorem jsSliceFrom_neg {α : Type} (xs : List α) (n : Nat) (hn : 0 < n) :
    jsSliceFrom xs (-(n : Int)) = xs.drop (xs.length - n) := by
  have h : ((xs.length : Int) + -(n : Int)).toNat = xs.length - n := by omega
  have h0 : -(n : Int) < 0 := by omega
  simp [jsSliceFrom, relIndex, h, h0]

theorem length_attachSMA (l : List Candle) : (attachSMA l).length = l.length := by
  simp [attachSMA]

theorem getElem?_attachSMA (l : List Candle) (i : Nat) :
    (attachSMA l)[i]? = l[i]?.map fun c =>
      { c with sma7 := (computeSMA l 7)[i]?, sma25 := (computeSMA l 25)[i]? } := by
  simp [attachSMA, List.getElem?_mapIdx]

theorem map_eraseSma_attachSMA (l : List Candle) :
    (attachSMA l).map eraseSma = l.map eraseSma := by
  apply List.ext_getElem?
  intro i
  simp only [List.getElem?_map, getElem?_attachSMA]
  cases l[i]? <;> simp [eraseSma]

theorem getLast?_eq_getElem? {α : Type} (xs : List α) : xs[xs.length - 1]? = xs.getLast? := by
  rw [List.getLast?_eq_getElem?]

theorem merge_same (s : List Candle) (c last : Candle) (h : s.getLast? = some last)
    (ht : last.time = c.time) : merge s c = s.dropLast ++ [c] := by
  have hne : s.length ≠ 0 := by
    intro h0
    rw [List.length_eq_zero] at h0
    simp [h0] at h
  unfold merge
  rw [getLast?_eq_getElem?, h, jsSlice_dropLast]
  simp [hne, ht]

theorem merge_new (s : List Candle) (c : Candle)
    (h : ∀ last, s.getLast? = some last → last.time ≠ c.time) :
    merge s c = attachSMA ((s ++ [c]).drop (s.length + 1 - 20)) := by
  unfold merge
  rw [getLast?_eq_getElem?]
  have h20 := jsSliceFrom_neg (s ++ [c]) 20 (by decide)
  simp only [Nat.cast_ofNat, List.length_append, List.length_singleton] at h20
  rw [h20]
  rw [if_neg]
  rintro ⟨-, h2⟩
  cases hl : s.getLast? with
  | none => simp [hl] at h2
  | some last =>
    rw [hl] at h2
    simp at h2
    exact h last hl h2

theorem merge_mergeRule (s : List Candle) (c : Candle) :
    (merge s c).map eraseSma = mergeRule 20 (s.map eraseSma) (eraseSma c) := by
  unfold mergeRule
  cases hl : s.getLast? with
  | none =>
    have : s = [] := by simpa using hl
    subst this
    rw [merge_new [] c (by simp)]
    simp [map_eraseSma_attachSMA]
  | some last =>
    simp only [List.getLast?_map, hl, Option.map_some']
    by_cases ht : last.time = c.time
    · rw [merge_same s c last hl ht]
      simp [eraseSma, ht, List.dropLast_eq_take, List.map_take]
    · rw [merge_new s c (by intro l hl2; rw [hl] at hl2; cases hl2; exact ht)]
      rw [map_eraseSma_attachSMA]
      simp [eraseSma, ht, List.map_drop]

theorem length_merge_le (s : List Candle) (c : Candle) (n : Nat) (hn : 20 ≤ n)
    (hs : s.length ≤ n) : (merge s c).length ≤ n := by
  cases hl : s.getLast? with
  | none =>
    rw [merge_new s c (by simp [hl]), length_attachSMA]
    simp; omega
  | some last =>
    by_cases ht : last.time = c.time
    · rw [merge_same s c last hl ht]
      simp
      have : s ≠ [] := by rintro rfl; simp at hl
      have := List.length_pos.mpr this
      omega
    · rw [merge_new s c (by intro l hl2; rw [hl] at hl2; cases hl2; exact ht), length_attachSMA]
      simp; omega

theorem computeSMA_congr (l l' : List Candle) (p : Nat)
    (h : l.map (·.close) = l'.map (·.close)) : computeSMA l p = computeSMA l' p := by
  have hlen : l.length = l'.length := by simpa using congrArg List.length h
  apply List.ext_getElem?
  intro i
  by_cases hi : i < l.length
  · rw [getElem?_computeSMA l p i hi, getElem?_computeSMA l' p i (hlen ▸ hi), foldl_close,
      foldl_close, List.map_take, List.map_take, List.map_drop, List.map_drop, h]
  · rw [List.getElem?_eq_none (by rw [length_computeSMA]; omega),
      List.getElem?_eq_none (by rw [length_computeSMA]; omega)]

theorem map_close_attachSMA (l : List Candle) :
    (attachSMA l).map (·.close) = l.map (·.close) := by
  apply List.ext_getElem?
  intro i
  simp only [List.getElem?_map, getElem?_attachSMA]
  cases l[i]? <;> simp

/-- The append branch of `merge` reattaches both averages: every candle of the
result carries the entries of `computeSMA` over the result. -/
theorem merge_new_bucket_recomputes (s : List Candle) (c : Candle)
    (h : ∀ last, s.getLast? = some last → last.time ≠ c.time) (i : Nat)
    (hi : i < (merge s c).length) :
    (merge s c)[i]?.map (·.sma7) = some ((computeSMA (merge s c) 7)[i]?) ∧
    (merge s c)[i]?.map (·.sma25) = some ((computeSMA (merge s c) 25)[i]?) := by
  rw [merge_new s c h] at hi ⊢
  rw [length_attachSMA] at hi
  rw [computeSMA_congr _ _ 7 (map_close_attachSMA _),
    computeSMA_congr _ _ 25 (map_close_attachSMA _), getElem?_attachSMA,
    List.getElem?_eq_getElem hi]
  simp

/-- C2, evaluated on the replace branch: the series of seven candles with
closes 1 to 7 carries `sma7 = 4` on its last candle; after a tick with the same
label `09:07` and close 14 the last candle has no `sma7` property at all, while
`computeSMA` over the resulting series gives 5 at that index.  The averages are
not rederived in the same-bucket branch. -/
theorem merge_same_bucket_skips_sma :
    (attachSMA sevenCandles)[6]?.map (·.sma7) = some (some (some (JsNum.fin 4))) ∧
    (merge (attachSMA sevenCandles) (flatCandle "09:07" 14))[6]?.map (·.sma7) = some none ∧
    (computeSMA (merge (attachSMA sevenCandles) (flatCandle "09:07" 14)) 7)[6]?
      = some (some (JsNum.fin 5)) := by
  have h0 : (attachSMA sevenCandles)[6]? = some
      { flatCandle "09:07" 7 with sma7 := some (some (JsNum.fin 4)), sma25 := some none } := by
    rw [getElem?_attachSMA]
    simp [sevenCandles, sixCandles, getElem?_computeSMA, flatCandle, JsNum.add, JsNum.div,
      JsNum.ofNat]
    norm_num
  have h2 : merge (attachSMA sevenCandles) (flatCandle "09:07" 14)
      = (attachSMA sevenCandles).dropLast ++ [flatCandle "09:07" 14] := by
    refine merge_same (attachSMA sevenCandles) (flatCandle "09:07" 14)
      { flatCandle "09:07" 7 with sma7 := some (some (JsNum.fin 4)), sma25 := some none }
      ?_ rfl
    rw [List.getLast?_eq_getElem?, length_attachSMA]
    exact h0
  refine ⟨by rw [h0]; rfl, ?_, ?_⟩
  · rw [h2]
    simp [sevenCandles, sixCandles, length_attachSMA, flatCandle, List.getElem?_append_right]
  · rw [h2, getElem?_computeSMA _ _ _ (by simp [sevenCandles, sixCandles, length_attachSMA])]
    simp [sevenCandles, sixCandles, attachSMA, flatCandle, JsNum.add, JsNum.div, JsNum.ofNat]
    norm_num

/-- C3, evaluated: on six candles followed by two ticks of the new label
`09:07` (closes 7, then 14) the last candle ends without an `sma7` property,
whereas merging the second tick alone gives it `sma7 = 5`; the two series
differ. -/
theorem merge_twice_differs :
    (merge (merge (attachSMA sixCandles) (flatCandle "09:07" 7)) (flatCandle "09:07" 14))[6]?.map
      (·.sma7) = some none ∧
    (merge (attachSMA sixCandles) (flatCandle "09:07" 14))[6]?.map (·.sma7)
      = some (some (some (JsNum.fin 5))) ∧
    merge (merge (attachSMA sixCandles) (flatCandle "09:07" 7)) (flatCandle "09:07" 14)
      ≠ merge (attachSMA sixCandles) (flatCandle "09:07" 14) := by
  have hnew : ∀ c : ℚ, merge (attachSMA sixCandles) (flatCandle "09:07" c)
      = attachSMA (attachSMA sixCandles ++ [flatCandle "09:07" c]) := by
    intro c
    rw [merge_new _ _ ?_]
    · simp [length_attachSMA, sixCandles]
    · intro last hl
      rw [List.getLast?_eq_getElem?, length_attachSMA, getElem?_attachSMA] at hl
      simp [sixCandles] at hl
      rw [← hl]
      simp [flatCandle]
  have hclose : ∀ c : ℚ, (attachSMA sixCandles ++ [flatCandle "09:07" c]).map (·.close)
      = (sixCandles ++ [flatCandle "09:07" c]).map (·.close) := by
    intro c
    rw [List.map_append, map_close_attachSMA, List.map_append]
  have hlast : ∀ c : ℚ, (attachSMA (attachSMA sixCandles ++ [flatCandle "09:07" c]))[6]?
      = some { flatCandle "09:07" c with
          sma7 := some (some (JsNum.fin ((21 + c) / 7))), sma25 := some none } := by
    intro c
    rw [getElem?_attachSMA, computeSMA_congr _ _ 7 (hclose c),
      computeSMA_congr _ _ 25 (hclose c)]
    simp [sixCandles, length_attachSMA, List.getElem?_append_right, getElem?_computeSMA,
      flatCandle, JsNum.add, JsNum.div, JsNum.ofNat]
    norm_num
  have h1 : (merge (merge (attachSMA sixCandles) (flatCandle "09:07" 7))
      (flatCandle "09:07" 14))[6]?.map (·.sma7) = some none := by
    rw [hnew 7, merge_same (attachSMA (attachSMA sixCandles ++ [flatCandle "09:07" 7]))
      (flatCandle "09:07" 14)
      { flatCandle "09:07" 7 with
        sma7 := some (some (JsNum.fin ((21 + 7) / 7))), sma25 := some none }
      (by
        rw [List.getLast?_eq_getElem?, length_attachSMA]
        simpa [length_attachSMA, sixCandles] using hlast 7) rfl]
    simp [sixCandles, length_attachSMA, flatCandle, List.getElem?_append_right]
  have h2 : (merge (attachSMA sixCandles) (flatCandle "09:07" 14))[6]?.map (·.sma7)
      = some (some (some (JsNum.fin 5))) := by
    rw [hnew 14, hlast 14]
    simp
    norm_num
  refine ⟨h1, h2, ?_⟩
  intro h
  rw [h, h2] at h1
  simp at h1

/-- C4 as stated, at `maxLen = 3`: on `[A, B, C]` a tick `D` leaves four candles
in the code, where the rule with `maxLen = 3` gives `[B, C, D]`. -/
theorem merge_ignores_maxLen_three :
    (merge [flatCandle "A" 1, flatCandle "B" 2, flatCandle "C" 3] (flatCandle "D" 4)).map eraseSma
      = [flatCandle "A" 1, flatCandle "B" 2, flatCandle "C" 3, flatCandle "D" 4] ∧
    mergeRule 3 [flatCandle "A" 1, flatCandle "B" 2, flatCandle "C" 3] (flatCandle "D" 4)
      = [flatCandle "B" 2, flatCandle "C" 3, flatCandle "D" 4] ∧
    (merge [flatCandle "A" 1, flatCandle "B" 2, flatCandle "C" 3] (flatCandle "D" 4)).map eraseSma
      ≠ mergeRule 3 [flatCandle "A" 1, flatCandle "B" 2, flatCandle "C" 3] (flatCandle "D" 4) := by
  have h1 : (merge [flatCandle "A" 1, flatCandle "B" 2, flatCandle "C" 3]
      (flatCandle "D" 4)).map eraseSma
      = [flatCandle "A" 1, flatCandle "B" 2, flatCandle "C" 3, flatCandle "D" 4] := by
    rw [merge_mergeRule]
    simp [mergeRule, eraseSma, flatCandle]
  have h2 : mergeRule 3 [flatCandle "A" 1, flatCandle "B" 2, flatCandle "C" 3]
      (flatCandle "D" 4) = [flatCandle "B" 2, flatCandle "C" 3, flatCandle "D" 4] := by
    simp [mergeRule, flatCandle]
  refine ⟨h1, h2, ?_⟩
  rw [h1, h2]
  intro h
  have := congrArg List.length h
  simp at this

/-- C4 (amended): ignoring the moving-average fields, `merge` is the decision
rule with the window fixed at 20: same last label, replace the last element;
otherwise append and keep the last 20.  On a full window of 20 a candle with a
new label drops the oldest element, and a further tick with that label
replaces the new last element, the length staying 20. -/
theorem merge_follows_rule (s : List Candle) (c c' : Candle) :
    (merge s c).map eraseSma = mergeRule 20 (s.map eraseSma) (eraseSma c) ∧
    (s.length = 20 → (∀ last, s.getLast? = some last → last.time ≠ c.time) →
      c'.time = c.time →
      (merge s c).map eraseSma = (s.tail ++ [c]).map eraseSma ∧
      (merge (merge s c) c').map eraseSma = (s.tail ++ [c']).map eraseSma) := by
  refine ⟨merge_mergeRule s c, ?_⟩
  intro hlen hnew hsame
  have h1 : (merge s c).map eraseSma = (s.tail ++ [c]).map eraseSma := by
    rw [merge_new s c hnew, map_eraseSma_attachSMA, hlen]
    cases s with
    | nil => simp at hlen
    | cons a t => simp
  refine ⟨h1, ?_⟩
  rw [merge_mergeRule, h1]
  simp [mergeRule, List.getLast?_append, eraseSma, hsame]

/-- C4 (amended), on the twenty candles `09:01 .. 09:20` with a tick `09:21`
and a second tick of the same label. -/
theorem merge_follows_rule_witness :
    twentyCandles.length = 20 ∧
    (merge twentyCandles (flatCandle "09:21" 21)).map eraseSma
      = (twentyCandles.tail ++ [flatCandle "09:21" 21]).map eraseSma ∧
    (merge (merge twentyCandles (flatCandle "09:21" 21)) (flatCandle "09:21" 22)).map eraseSma
      = (twentyCandles.tail ++ [flatCandle "09:21" 22]).map eraseSma :=
  ⟨rfl, (merge_follows_rule twentyCandles (flatCandle "09:21" 21) (flatCandle "09:21" 22)).2 rfl
    (by intro last hl; simp [twentyCandles] at hl; rw [← hl]; simp [flatCandle]) rfl⟩

/-- C5: the live profile's limit is 20, a merge keeps a series of length at
most that limit within the limit, and so does any sequence of merges. -/
theorem live_length_bounded (cfg : RangeCfg) (hcfg : RANGES "live" = some cfg)
    (s : List Candle) (ticks : List Candle) (hs : s.length ≤ cfg.limit) :
    cfg.limit = 20 ∧ (∀ c, (merge s c).length ≤ cfg.limit) ∧
    (ticks.foldl merge s).length ≤ cfg.limit := by
  have h20 : cfg.limit = 20 := by
    simp [RANGES] at hcfg
    rw [← hcfg]
  refine ⟨h20, fun c => length_merge_le s c _ (by omega) hs, ?_⟩
  induction ticks generalizing s with
  | nil => simpa using hs
  | cons t ts ih =>
    rw [List.foldl_cons]
    exact ih _ (length_merge_le s t _ (by omega) hs)

/-- C5, on six candles and two ticks. -/
theorem live_length_bounded_witness :
    sixCandles.length ≤ 20 ∧
    ([flatCandle "09:06" 7, flatCandle "09:07" 8].foldl merge sixCandles).length ≤ 20 :=
  ⟨by decide, (live_length_bounded { interval := "1m", limit := 20, live := true } rfl sixCandles
    [flatCandle "09:06" 7, flatCandle "09:07" 8] (by decide)).2.2⟩

/-! ## The price-change summary -/

theorem toFixed2_fin_nonneg (q : ℚ) (n : Nat) (h0 : 0 ≤ q) (h1 : (n : ℚ) ≤ q * 100 + 1 / 2)
    (h2 : q * 100 + 1 / 2 < n + 1) : toFixed2 (JsNum.fin q) = FixedStr.dec false n := by
  have hf : ⌊|q| * 100 + 1 / 2⌋ = (n : Int) := by
    rw [Int.floor_eq_iff, abs_of_nonneg h0]
    constructor
    · exact_mod_cast h1
    · exact_mod_cast h2
  show FixedStr.dec (decide (q < 0)) (Int.toNat ⌊|q| * 100 + 1 / 2⌋) = _
  rw [hf]
  simp [not_lt.mpr h0]

theorem toFixed2_zero : toFixed2 (JsNum.fin 0) = FixedStr.dec false 0 :=
  toFixed2_fin_nonneg 0 0 (le_refl 0) (by norm_num) (by norm_num)

theorem sub_fin (a b : ℚ) : JsNum.sub (JsNum.fin a) (JsNum.fin b) = JsNum.fin (a - b) := by
  simp [JsNum.sub, JsNum.add, JsNum.neg, sub_eq_add_neg]

theorem mul_fin (a b : ℚ) : JsNum.mul (JsNum.fin a) (JsNum.fin b) = JsNum.fin (a * b) := rfl

theorem div_fin (a b : ℚ) (hb : b ≠ 0) :
    JsNum.div (JsNum.fin a) (JsNum.fin b) = JsNum.fin (a / b) := by
  simp [JsNum.div, hb]

theorem div_fin_zero (a : ℚ) :
    JsNum.div (JsNum.fin a) (JsNum.fin 0)
      = if a = 0 then JsNum.nan else JsNum.inf (decide (a < 0)) := by
  simp [JsNum.div]

theorem toNumber_dec_false (n : Nat) :
    (FixedStr.dec false n).toNumber = JsNum.fin ((n : ℚ) / 100) := by
  simp [FixedStr.toNumber]

theorem onLoaded_ok (cfg : RangeCfg) (st : ChartState) (data : List Candle) (c0 cl : Candle)
    (h0 : data[0]? = some c0) (hl : data[data.length - 1]? = some cl) :
    onLoaded cfg true st data = Except.ok
      ({ st with
          candles := data
          loading := false
          priceChange := some (toFixed2 (JsNum.sub cl.close c0.close))
          pctChange := some (toFixed2 (JsNum.mul
            (JsNum.div (toFixed2 (JsNum.sub cl.close c0.close)).toNumber c0.close)
            (JsNum.ofNat 100))) }, cfg.live) := by
  simp [onLoaded, h0, hl]

/-- C6, evaluated: for closes 0.100 and 0.104 the handler stores the change
`0.00` and, dividing that rounded string by the first close, the percent
`0.00`, whereas `((last - first) / first) * 100` rounded to two decimals is
`4.00`.  On closes 10, 12, 11 it stores `1.00` and `10.00`. -/
theorem pctChange_from_rounded_change (cfg : RangeCfg) (st : ChartState) :
    (∃ st1, onLoaded cfg true st [flatCandle "Mon" (1 / 10), flatCandle "Tue" (13 / 125)]
        = Except.ok (st1, cfg.live) ∧
      st1.priceChange = some (FixedStr.dec false 0) ∧
      st1.pctChange = some (FixedStr.dec false 0)) ∧
    toFixed2 (JsNum.mul (JsNum.div (JsNum.sub (JsNum.fin (13 / 125)) (JsNum.fin (1 / 10)))
      (JsNum.fin (1 / 10))) (JsNum.ofNat 100)) = FixedStr.dec false 400 ∧
    (∃ st1, onLoaded cfg true st [flatCandle "Mon" 10, flatCandle "Tue" 12, flatCandle "Wed" 11]
        = Except.ok (st1, cfg.live) ∧
      st1.priceChange = some (FixedStr.dec false 100) ∧
      st1.pctChange = some (FixedStr.dec false 1000)) := by
  have e1 : toFixed2 (JsNum.sub (JsNum.fin (13 / 125)) (JsNum.fin (1 / 10)))
      = FixedStr.dec false 0 := by
    rw [sub_fin]
    exact toFixed2_fin_nonneg _ 0 (by norm_num) (by norm_num) (by norm_num)
  have e2 : toFixed2 (JsNum.sub (JsNum.fin 11) (JsNum.fin 10)) = FixedStr.dec false 100 := by
    rw [sub_fin]
    exact toFixed2_fin_nonneg _ 100 (by norm_num) (by norm_num) (by norm_num)
  refine ⟨⟨_, onLoaded_ok cfg st _ _ _ rfl rfl, ?_, ?_⟩, ?_,
    ⟨_, onLoaded_ok cfg st _ _ _ rfl rfl, ?_, ?_⟩⟩
  · exact congrArg some e1
  · show some (toFixed2 (JsNum.mul (JsNum.div (toFixed2 (JsNum.sub (JsNum.fin (13 / 125))
      (JsNum.fin (1 / 10)))).toNumber (JsNum.fin (1 / 10))) (JsNum.ofNat 100))) = _
    rw [e1, toNumber_dec_false, div_fin _ _ (by norm_num), JsNum.ofNat, mul_fin]
    exact congrArg some (toFixed2_fin_nonneg _ 0 (by norm_num) (by norm_num) (by norm_num))
  · rw [sub_fin, div_fin _ _ (by norm_num), JsNum.ofNat, mul_fin]
    exact toFixed2_fin_nonneg _ 400 (by norm_num) (by norm_num) (by norm_num)
  · exact congrArg some e2
  · show some (toFixed2 (JsNum.mul (JsNum.div (toFixed2 (JsNum.sub (JsNum.fin 11)
      (JsNum.fin 10))).toNumber (JsNum.fin 10)) (JsNum.ofNat 100))) = _
    rw [e2, toNumber_dec_false, div_fin _ _ (by norm_num), JsNum.ofNat, mul_fin]
    exact congrArg some (toFixed2_fin_nonneg _ 1000 (by norm_num) (by norm_num) (by norm_num))

theorem sub_zero_js (x : JsNum) : JsNum.sub x (JsNum.fin 0) = x := by
  cases x <;> simp [JsNum.sub, JsNum.add, JsNum.neg]

theorem mul_inf_hundred (s : Bool) :
    JsNum.mul (JsNum.inf s) (JsNum.ofNat 100) = JsNum.inf s := by
  have h1 : ¬ ((100 : ℚ) = 0) := by norm_num
  have h2 : ¬ ((100 : ℚ) < 0) := by norm_num
  cases s <;> simp [JsNum.inf, JsNum.mul, JsNum.sign?, JsNum.ofNat, h1, h2]

theorem toFixed2_inf (s : Bool) :
    toFixed2 (JsNum.inf s) = if s then FixedStr.negInf else FixedStr.posInf := by
  cases s <;> rfl

theorem pct_of_dec (negative : Bool) (n : Nat) :
    toFixed2 (JsNum.mul (JsNum.div (FixedStr.dec negative n).toNumber (JsNum.fin 0))
      (JsNum.ofNat 100))
      = if n = 0 then FixedStr.nan
        else if negative then FixedStr.negInf else FixedStr.posInf := by
  show toFixed2 (JsNum.mul (JsNum.div (JsNum.fin ((if negative then -1 else 1) * (n : ℚ) / 100))
    (JsNum.fin 0)) (JsNum.ofNat 100)) = _
  rw [div_fin_zero]
  by_cases hn : n = 0
  · subst hn
    simp
    rfl
  · have hq : (0 : ℚ) < (n : ℚ) := by exact_mod_cast Nat.pos_of_ne_zero hn
    cases negative with
    | true =>
      have hv : (-1 : ℚ) * (n : ℚ) / 100 < 0 := by
        have : (0 : ℚ) < (n : ℚ) / 100 := by positivity
        linarith
      simp only [if_true]
      rw [if_neg (ne_of_lt hv), if_neg hn, decide_eq_true hv, mul_inf_hundred, toFixed2_inf]
      rfl
    | false =>
      have hv : 0 < (1 : ℚ) * (n : ℚ) / 100 := by positivity
      simp only [Bool.false_eq_true, if_false]
      rw [if_neg (ne_of_gt hv), if_neg hn, decide_eq_false (not_lt.mpr (le_of_lt hv)),
        mul_inf_hundred, toFixed2_inf]
      rfl

theorem pct_zero_first_eq (last : JsNum) :
    toFixed2 (JsNum.mul (JsNum.div (toFixed2 (JsNum.sub last (JsNum.fin 0))).toNumber
      (JsNum.fin 0)) (JsNum.ofNat 100)) = pctOfZeroFirst last := by
  rw [sub_zero_js]
  unfold pctOfZeroFirst
  cases h : toFixed2 last with
  | dec negative n => exact pct_of_dec negative n
  | nan => rfl
  | posInf => exact (mul_inf_hundred false ▸ rfl : toFixed2 (JsNum.mul (JsNum.inf false) (JsNum.ofNat 100)) = FixedStr.posInf)
  | negInf => exact (mul_inf_hundred true ▸ rfl : toFixed2 (JsNum.mul (JsNum.inf true) (JsNum.ofNat 100)) = FixedStr.negInf)

theorem toNat_round_eq_zero (l : ℚ) :
    Int.toNat ⌊|l| * 100 + 1 / 2⌋ = 0 ↔ |l| < 1 / 200 := by
  rw [Int.toNat_eq_zero, ← Int.lt_add_one_iff, Int.floor_lt]
  constructor
  · intro h
    push_cast at h
    linarith
  · intro h
    push_cast
    linarith

/-- C7 as stated fails: with first close 0 and last close 5 the percent change
is stored as `Infinity`. -/
theorem pct_infinity_on_zero_first :
    ∃ st1, onLoaded { interval := "15m", limit := 96, live := false } true {}
        [flatCandle "Mon" 0, flatCandle "Tue" 5] = Except.ok (st1, false) ∧
      st1.pctChange = some FixedStr.posInf := by
  refine ⟨_, onLoaded_ok _ _ _ _ _ rfl rfl, ?_⟩
  show some (toFixed2 (JsNum.mul (JsNum.div (toFixed2 (JsNum.sub (JsNum.fin 5)
    (JsNum.fin 0))).toNumber (JsNum.fin 0)) (JsNum.ofNat 100))) = _
  rw [pct_zero_first_eq]
  have h5 : toFixed2 (JsNum.fin 5) = FixedStr.dec false 500 :=
    toFixed2_fin_nonneg 5 500 (by norm_num) (by norm_num) (by norm_num)
  simp [pctOfZeroFirst, h5]

/-- C7 (amended): when the first close is 0 the `.then` callback returns
normally and the percent change it stores is never a finite number: it is `NaN`
when the last close is `NaN` or rounds to `0.00` (magnitude below 0.005), and
otherwise it is `Infinity` or `-Infinity`. -/
theorem pct_on_zero_first (cfg : RangeCfg) (st : ChartState) (data : List Candle)
    (c0 cl : Candle) (h0 : data[0]? = some c0) (hl : data[data.length - 1]? = some cl)
    (hz : c0.close = JsNum.fin 0) :
    ∃ st1, onLoaded cfg true st data = Except.ok (st1, cfg.live) ∧
      (st1.pctChange = some FixedStr.nan ∨ st1.pctChange = some FixedStr.posInf ∨
        st1.pctChange = some FixedStr.negInf) ∧
      (cl.close = JsNum.nan → st1.pctChange = some FixedStr.nan) ∧
      (cl.close = JsNum.posInf ∨ cl.close = JsNum.negInf →
        st1.pctChange = some FixedStr.posInf ∨ st1.pctChange = some FixedStr.negInf) ∧
      (∀ l : ℚ, cl.close = JsNum.fin l →
        (|l| < 1 / 200 → st1.pctChange = some FixedStr.nan) ∧
        (¬ |l| < 1 / 200 →
          st1.pctChange = some FixedStr.posInf ∨ st1.pctChange = some FixedStr.negInf)) := by
  have hp : (some (toFixed2 (JsNum.mul (JsNum.div (toFixed2 (JsNum.sub cl.close
      c0.close)).toNumber c0.close) (JsNum.ofNat 100)))) = some (pctOfZeroFirst cl.close) := by
    rw [hz, pct_zero_first_eq]
  have hfin : ∀ l : ℚ, cl.close = JsNum.fin l →
      pctOfZeroFirst cl.close = (if |l| < 1 / 200 then FixedStr.nan
        else if l < 0 then FixedStr.negInf else FixedStr.posInf) := by
    intro l h
    rw [h]
    simp only [pctOfZeroFirst, toFixed2, toNat_round_eq_zero]
    by_cases hl0 : l < 0 <;> simp [hl0]
  refine ⟨_, onLoaded_ok cfg st data c0 cl h0 hl, ?_, ?_, ?_, ?_⟩
  · show some _ = _ ∨ some _ = _ ∨ some _ = _
    rw [hp]
    cases hc : cl.close with
    | nan => exact Or.inl rfl
    | posInf => exact Or.inr (Or.inl rfl)
    | negInf => exact Or.inr (Or.inr rfl)
    | fin l =>
      rw [← hc, hfin l hc]
      by_cases h1 : |l| < 1 / 200
      · rw [if_pos h1]; exact Or.inl rfl
      · rw [if_neg h1]
        by_cases h2 : l < 0
        · rw [if_pos h2]; exact Or.inr (Or.inr rfl)
        · rw [if_neg h2]; exact Or.inr (Or.inl rfl)
  · intro h; show some _ = _; rw [hp, h]; rfl
  · intro h
    show some _ = _ ∨ some _ = _
    rw [hp]
    rcases h with h | h
    · rw [h]; exact Or.inl rfl
    · rw [h]; exact Or.inr rfl
  · intro l h
    constructor
    · intro h1
      show some _ = _
      rw [hp, hfin l h, if_pos h1]
    · intro h1
      show some _ = _ ∨ some _ = _
      rw [hp, hfin l h, if_neg h1]
      by_cases h2 : l < 0
      · rw [if_pos h2]; exact Or.inr rfl
      · rw [if_neg h2]; exact Or.inl rfl

/-- C7 (amended), at closes 0 and 0.001: the percent change is `NaN`. -/
theorem pct_on_zero_first_witness :
    ∃ st1, onLoaded { interval := "15m", limit := 96, live := false } true {}
        [flatCandle "Mon" 0, flatCandle "Tue" (1 / 1000)] = Except.ok (st1, false) ∧
      st1.pctChange = some FixedStr.nan := by
  obtain ⟨st1, h1, -, -, -, h2⟩ := pct_on_zero_first
    { interval := "15m", limit := 96, live := false } {}
    [flatCandle "Mon" 0, flatCandle "Tue" (1 / 1000)] (flatCandle "Mon" 0)
    (flatCandle "Tue" (1 / 1000)) rfl rfl rfl
  refine ⟨st1, h1, (h2 (1 / 1000) rfl).1 ?_⟩
  rw [abs_of_nonneg] <;> norm_num

theorem single_candle_summary (c : Candle) :
    toFixed2 (JsNum.sub c.close c.close)
      = (match c.close with
        | JsNum.fin _ => FixedStr.dec false 0
        | _ => FixedStr.nan) ∧
    toFixed2 (JsNum.mul (JsNum.div (toFixed2 (JsNum.sub c.close c.close)).toNumber c.close)
        (JsNum.ofNat 100))
      = (match c.close with
        | JsNum.fin q => if q = 0 then FixedStr.nan else FixedStr.dec false 0
        | _ => FixedStr.nan) := by
  cases h : c.close with
  | nan => exact ⟨rfl, rfl⟩
  | posInf => exact ⟨rfl, rfl⟩
  | negInf => exact ⟨rfl, rfl⟩
  | fin q =>
    have e : toFixed2 (JsNum.sub (JsNum.fin q) (JsNum.fin q)) = FixedStr.dec false 0 := by
      rw [sub_fin, sub_self]; exact toFixed2_zero
    refine ⟨e, ?_⟩
    rw [e, toNumber_dec_false]
    by_cases hq : q = 0
    · subst hq
      rw [div_fin_zero]
      simp
      rfl
    · rw [div_fin _ _ hq, JsNum.ofNat, mul_fin]
      simp [hq, toFixed2_zero]

/-- C8 as stated fails: from the initial state, where no summary is set, a
series of one candle (close 10) leaves `priceChange = 0.00` and
`pctChange = 0.00`. -/
theorem summary_set_on_single_candle :
    (ChartState.priceChange {}) = none ∧
    ∃ st1, onLoaded { interval := "15m", limit := 96, live := false } true {}
        [flatCandle "Mon" 10] = Except.ok (st1, false) ∧
      st1.priceChange = some (FixedStr.dec false 0) ∧
      st1.pctChange = some (FixedStr.dec false 0) := by
  refine ⟨rfl, _, onLoaded_ok _ _ _ _ _ rfl rfl, ?_, ?_⟩
  · exact congrArg some (single_candle_summary (flatCandle "Mon" 10)).1
  · have h := (single_candle_summary (flatCandle "Mon" 10)).2
    have h10 : ¬ ((10 : ℚ) = 0) := by norm_num
    simp only [flatCandle, if_neg h10] at h
    exact congrArg some h

theorem bootSettle_ok (cfg : RangeCfg) (st : ChartState) (data : List Candle) (c0 cl : Candle)
    (h0 : data[0]? = some c0) (hl : data[data.length - 1]? = some cl) :
    bootSettle cfg true st (some data) =
      ({ st with
          candles := data
          loading := false
          priceChange := some (toFixed2 (JsNum.sub cl.close c0.close))
          pctChange := some (toFixed2 (JsNum.mul
            (JsNum.div (toFixed2 (JsNum.sub cl.close c0.close)).toNumber c0.close)
            (JsNum.ofNat 100))) }, cfg.live) := by
  unfold bootSettle
  simp only [onLoaded_ok cfg st data c0 cl h0 hl]

/-- C8 (amended): a loaded series of one candle is published, the loading flag
is cleared, the error message is left as it was, and the summary is computed
with first = last: `0.00` and `0.00` for a finite non-zero close, `0.00` and
`NaN` for a close of 0, `NaN` twice for a close that is not finite.  An empty
series is published, the loading flag is cleared and `priceChange` and
`pctChange` keep their previous values. -/
theorem boot_on_short_series (cfg : RangeCfg) (st : ChartState) (c : Candle) :
    ((bootSettle cfg true st (some [c])).1.candles = [c] ∧
      (bootSettle cfg true st (some [c])).1.loading = false ∧
      (bootSettle cfg true st (some [c])).1.error = st.error ∧
      (bootSettle cfg true st (some [c])).1.priceChange = some (match c.close with
        | JsNum.fin _ => FixedStr.dec false 0
        | _ => FixedStr.nan) ∧
      (bootSettle cfg true st (some [c])).1.pctChange = some (match c.close with
        | JsNum.fin q => if q = 0 then FixedStr.nan else FixedStr.dec false 0
        | _ => FixedStr.nan)) ∧
    ((bootSettle cfg true st (some [])).1.candles = [] ∧
      (bootSettle cfg true st (some [])).1.loading = false ∧
      (bootSettle cfg true st (some [])).1.priceChange = st.priceChange ∧
      (bootSettle cfg true st (some [])).1.pctChange = st.pctChange) := by
  refine ⟨?_, ?_⟩
  · rw [bootSettle_ok cfg st [c] c c rfl rfl]
    refine ⟨rfl, rfl, rfl, ?_, ?_⟩
    · exact congrArg some (single_candle_summary c).1
    · exact congrArg some (single_candle_summary c).2
  · simp [bootSettle, onLoaded, onLoadFailed]

/-! ## Live ticks and the cache -/

theorem foldl_onmessage_frame (b : Builtins) (msgs : List (Option WsKline)) (st : ChartState) :
    (msgs.foldl (onmessage b) st).priceChange = st.priceChange ∧
    (msgs.foldl (onmessage b) st).pctChange = st.pctChange ∧
    (msgs.foldl (onmessage b) st).loading = st.loading ∧
    (msgs.foldl (onmessage b) st).cache = st.cache ∧
    (msgs.foldl (onmessage b) st).fetches = st.fetches := by
  induction msgs generalizing st with
  | nil => exact ⟨rfl, rfl, rfl, rfl, rfl⟩
  | cons m ms ih =>
    rw [List.foldl_cons]
    obtain ⟨h1, h2, h3, h4, h5⟩ := ih (onmessage b st m)
    rw [h1, h2, h3, h4, h5]
    cases m <;> exact ⟨rfl, rfl, rfl, rfl, rfl⟩

/-- C9: a live tick sets the series to the merged one and clears the error
message; over any sequence of messages `priceChange`, `pctChange`, the loading
flag, the cache and the issued requests stay as they were, so the summary stays
the one stored by the boot sequence. -/
theorem onmessage_keeps_summary (b : Builtins) (st : ChartState) (k : WsKline)
    (msgs : List (Option WsKline)) (cfg : RangeCfg) (data : List Candle) :
    ((onmessage b st (some k)).candles = merge st.candles (parseWsKline b k) ∧
      (onmessage b st (some k)).error = none) ∧
    ((msgs.foldl (onmessage b) st).priceChange = st.priceChange ∧
      (msgs.foldl (onmessage b) st).pctChange = st.pctChange ∧
      (msgs.foldl (onmessage b) st).loading = st.loading ∧
      (msgs.foldl (onmessage b) st).cache = st.cache ∧
      (msgs.foldl (onmessage b) st).fetches = st.fetches) ∧
    ((msgs.foldl (onmessage b) (bootSettle cfg true st (some data)).1).priceChange
        = (bootSettle cfg true st (some data)).1.priceChange ∧
      (msgs.foldl (onmessage b) (bootSettle cfg true st (some data)).1).pctChange
        = (bootSettle cfg true st (some data)).1.pctChange) :=
  ⟨⟨rfl, rfl⟩, foldl_onmessage_frame b msgs st,
    (foldl_onmessage_frame b msgs _).1, (foldl_onmessage_frame b msgs _).2.1⟩

theorem loadCandles_hit (b : Builtins) (provider : FetchRequest → Option (List RawKline))
    (st : ChartState) (symbol range : String) (data : List Candle)
    (h : st.cache (cacheKey symbol range) = some data) :
    loadCandles b provider st symbol range = (st, some data) := by
  simp [loadCandles, loadCandlesStart, h]

theorem loadCandles_success (b : Builtins) (provider : FetchRequest → Option (List RawKline))
    (st : ChartState) (symbol range : String) (data : List Candle)
    (h : (loadCandles b provider st symbol range).2 = some data) :
    (loadCandles b provider st symbol range).1.cache (cacheKey symbol range) = some data ∧
    (st.cache (cacheKey symbol range) = none →
      ∃ req, (loadCandles b provider st symbol range).1.fetches = st.fetches ++ [req]) := by
  unfold loadCandles loadCandlesStart at h ⊢
  cases hc : st.cache (cacheKey symbol range) with
  | some d =>
    simp only [hc] at h ⊢
    cases h
    exact ⟨rfl, fun h => by cases h⟩
  | none =>
    simp only [hc] at h ⊢
    cases hr : RANGES range with
    | none =>
      simp only [hr] at h ⊢
      by_cases hk : range ∈ objectPrototypeKeys
      · simp only [hk, if_true] at h ⊢
        generalize provider _ = response at h ⊢
        cases response with
        | none => simp [loadCandlesFinish] at h
        | some raw =>
          simp only [loadCandlesFinish] at h ⊢
          cases h
          exact ⟨by simp, fun _ => ⟨_, rfl⟩⟩
      · simp [hk] at h
    | some cfg =>
      simp only [hr] at h ⊢
      generalize provider _ = response at h ⊢
      cases response with
      | none => simp [loadCandlesFinish] at h
      | some raw =>
        simp only [loadCandlesFinish] at h ⊢
        cases h
        exact ⟨by simp, fun _ => ⟨_, rfl⟩⟩

/-- C10: after a `loadCandles` call that returned a series, a second call for
the same symbol and range returns that same series and leaves the state as it
found it (no request is sent, the loading flag is not raised), whatever live
messages were handled in between; those messages leave the cache unchanged.
When the key was not cached before the first call, the two calls together add
exactly one request. -/
theorem loadCandles_second_call (b : Builtins)
    (provider provider' : FetchRequest → Option (List RawKline)) (st : ChartState)
    (symbol range : String) (data : List Candle) (msgs : List (Option WsKline))
    (h : (loadCandles b provider st symbol range).2 = some data) :
    loadCandles b provider'
        (msgs.foldl (onmessage b) (loadCandles b provider st symbol range).1) symbol range
      = (msgs.foldl (onmessage b) (loadCandles b provider st symbol range).1, some data) ∧
    (msgs.foldl (onmessage b) (loadCandles b provider st symbol range).1).cache
      = (loadCandles b provider st symbol range).1.cache ∧
    (st.cache (cacheKey symbol range) = none →
      ∃ req, (loadCandles b provider'
        (msgs.foldl (onmessage b) (loadCandles b provider st symbol range).1)
        symbol range).1.fetches = st.fetches ++ [req]) := by
  obtain ⟨hc, hf⟩ := loadCandles_success b provider st symbol range data h
  obtain ⟨-, -, -, h4, h5⟩ := foldl_onmessage_frame b msgs (loadCandles b provider st symbol range).1
  have hit := loadCandles_hit b provider'
    (msgs.foldl (onmessage b) (loadCandles b provider st symbol range).1) symbol range data
    (by rw [h4]; exact hc)
  refine ⟨hit, h4, ?_⟩
  intro hnone
  obtain ⟨req, hreq⟩ := hf hnone
  exact ⟨req, by rw [hit, h5, hreq]⟩

/-- C10, for `BTCUSDT` on the `1d` range: the first call loads one kline, a live
message follows, and the second call returns the same series although its
provider answers nothing. -/
theorem loadCandles_second_call_witness :
    (loadCandles plainBuiltins (fun _ => some [sampleKline]) {} "BTCUSDT" "1d").2
      = some (attachSMA [parseKline plainBuiltins sampleKline "1d"]) ∧
    (loadCandles plainBuiltins (fun _ => none)
      ([some { t := 60000, o := "11", h := "11", l := "11", c := "11", v := "1" }].foldl
        (onmessage plainBuiltins)
        (loadCandles plainBuiltins (fun _ => some [sampleKline]) {} "BTCUSDT" "1d").1)
      "BTCUSDT" "1d").2 = some (attachSMA [parseKline plainBuiltins sampleKline "1d"]) :=
  ⟨rfl, congrArg Prod.snd (loadCandles_second_call plainBuiltins (fun _ => some [sampleKline])
    (fun _ => none) {} "BTCUSDT" "1d" (attachSMA [parseKline plainBuiltins sampleKline "1d"])
    [some { t := 60000, o := "11", h := "11", l := "11", c := "11", v := "1" }] rfl).1⟩

/-! ## The loader under overlap, the live key and failures -/

/-- C11 as stated fails: the selections `1d`, `1m`, `1d` for `BTCUSDT`, each
started before any answer arrived, send three requests, the one for `1d`
twice. -/
theorem overlapping_load_fetches_again :
    (loadCandlesStart plainBuiltins
      (loadCandlesStart plainBuiltins
        (loadCandlesStart plainBuiltins {} "BTCUSDT" "1d").1 "BTCUSDT" "1m").1
      "BTCUSDT" "1d").1.fetches
      = [{ symbol := "BTCUSDT", interval := some "15m", limit := some 96 },
         { symbol := "BTCUSDT", interval := some "1h", limit := some 744 },
         { symbol := "BTCUSDT", interval := some "15m", limit := some 96 }] := by
  have hu : plainBuiltins.toUpperCase "BTCUSDT" = "BTCUSDT" := by decide
  have h : (loadCandlesStart plainBuiltins
      (loadCandlesStart plainBuiltins
        (loadCandlesStart plainBuiltins {} "BTCUSDT" "1d").1 "BTCUSDT" "1m").1
      "BTCUSDT" "1d").1.fetches
      = [{ symbol := plainBuiltins.toUpperCase "BTCUSDT", interval := some "15m",
           limit := some 96 },
         { symbol := plainBuiltins.toUpperCase "BTCUSDT", interval := some "1h",
           limit := some 744 },
         { symbol := plainBuiltins.toUpperCase "BTCUSDT", interval := some "15m",
           limit := some 96 }] := rfl
  rw [h, hu]

/-- C11 (amended): for a range with a profile, `loadCandles` returns the cached
series without a request when the cache holds one for the key; when it holds
none it sends a request, whatever requests are already outstanding, and leaves
the cache as it is, so a second start before the first answer sends the same
request a second time. -/
theorem loadCandlesStart_fetches_unless_cached (b : Builtins) (st : ChartState)
    (symbol range : String) (cfg : RangeCfg) (hr : RANGES range = some cfg) :
    (∀ data, st.cache (cacheKey symbol range) = some data →
      loadCandlesStart b st symbol range = (st, LoadStart.resolved data)) ∧
    (st.cache (cacheKey symbol range) = none →
      (loadCandlesStart b st symbol range).1.fetches = st.fetches ++
        [{ symbol := b.toUpperCase symbol, interval := some cfg.interval,
           limit := some cfg.limit }] ∧
      (loadCandlesStart b st symbol range).1.cache = st.cache ∧
      (loadCandlesStart b (loadCandlesStart b st symbol range).1 symbol range).1.fetches
        = st.fetches ++
          [{ symbol := b.toUpperCase symbol, interval := some cfg.interval,
             limit := some cfg.limit },
           { symbol := b.toUpperCase symbol, interval := some cfg.interval,
             limit := some cfg.limit }]) := by
  constructor
  · intro data h
    simp [loadCandlesStart, h]
  · intro h
    simp [loadCandlesStart, h, hr]

/-- C11 (amended), for `BTCUSDT` on `1d` from an empty cache: two starts, two
equal requests. -/
theorem loadCandlesStart_fetches_unless_cached_witness :
    (loadCandlesStart plainBuiltins
      (loadCandlesStart plainBuiltins {} "BTCUSDT" "1d").1 "BTCUSDT" "1d").1.fetches
      = [] ++ [{ symbol := plainBuiltins.toUpperCase "BTCUSDT", interval := some "15m",
                 limit := some 96 },
               { symbol := plainBuiltins.toUpperCase "BTCUSDT", interval := some "15m",
                 limit := some 96 }] :=
  ((loadCandlesStart_fetches_unless_cached plainBuiltins {} "BTCUSDT" "1d"
    { interval := "15m", limit := 96, live := false } rfl).2 rfl).2.2

/-- C12 as stated fails: a load of the live range stores its series under the
key `BTCUSDT-live`, and the next load of the live range is answered from that
entry at the cache check. -/
theorem live_range_is_cached :
    (loadCandles plainBuiltins (fun _ => some [sampleKline]) {} "BTCUSDT" "live").1.cache
        (cacheKey "BTCUSDT" "live")
      = some (attachSMA [parseKline plainBuiltins sampleKline "live"]) ∧
    loadCandlesStart plainBuiltins
        (loadCandles plainBuiltins (fun _ => some [sampleKline]) {} "BTCUSDT" "live").1
        "BTCUSDT" "live"
      = ((loadCandles plainBuiltins (fun _ => some [sampleKline]) {} "BTCUSDT" "live").1,
         LoadStart.resolved (attachSMA [parseKline plainBuiltins sampleKline "live"])) := by
  constructor <;> rfl

/-- C12 (amended): the live range uses the cache like every other range: a
load that returned a series has stored it under the `live` key, live messages
do not change that entry, and the next load of the live range returns the same
series without a request. -/
theorem live_range_uses_cache (b : Builtins)
    (provider provider' : FetchRequest → Option (List RawKline)) (st : ChartState)
    (symbol : String) (data : List Candle) (msgs : List (Option WsKline))
    (h : (loadCandles b provider st symbol "live").2 = some data) :
    (loadCandles b provider st symbol "live").1.cache (cacheKey symbol "live") = some data ∧
    (msgs.foldl (onmessage b) (loadCandles b provider st symbol "live").1).cache
        (cacheKey symbol "live") = some data ∧
    loadCandles b provider'
        (msgs.foldl (onmessage b) (loadCandles b provider st symbol "live").1) symbol "live"
      = (msgs.foldl (onmessage b) (loadCandles b provider st symbol "live").1, some data) := by
  obtain ⟨hc, -⟩ := loadCandles_success b provider st symbol "live" data h
  obtain ⟨-, -, -, h4, -⟩ :=
    foldl_onmessage_frame b msgs (loadCandles b provider st symbol "live").1
  have hc2 : (msgs.foldl (onmessage b) (loadCandles b provider st symbol "live").1).cache
      (cacheKey symbol "live") = some data := by rw [h4]; exact hc
  exact ⟨hc, hc2, loadCandles_hit b provider' _ symbol "live" data hc2⟩

/-- C12 (amended), for `BTCUSDT`: the second load of the live range returns the
first series although its provider answers nothing. -/
theorem live_range_uses_cache_witness :
    (loadCandles plainBuiltins (fun _ => none)
      (loadCandles plainBuiltins (fun _ => some [sampleKline]) {} "BTCUSDT" "live").1
      "BTCUSDT" "live").2 = some (attachSMA [parseKline plainBuiltins sampleKline "live"]) :=
  congrArg Prod.snd (live_range_uses_cache plainBuiltins (fun _ => some [sampleKline])
    (fun _ => none) {} "BTCUSDT" (attachSMA [parseKline plainBuiltins sampleKline "live"])
    [] rfl).2.2

/-- C13, evaluated on an empty answer: the provider answers `[]` for
`BTCUSDT` on `1d`; the boot sequence ends with `Failed to load data`, yet the
cache holds `[]` under the key, and selecting the key again resolves from the
cache without a second request.  After a failed fetch the cache holds no
entry. -/
theorem empty_answer_is_cached :
    (step plainBuiltins (runEffect plainBuiltins {} "BTCUSDT" "1d")
        (Event.settle (some []))).chart.error = some "Failed to load data" ∧
    (step plainBuiltins (runEffect plainBuiltins {} "BTCUSDT" "1d")
        (Event.settle (some []))).chart.cache (cacheKey "BTCUSDT" "1d") = some [] ∧
    (runEffect plainBuiltins
        (step plainBuiltins (runEffect plainBuiltins {} "BTCUSDT" "1d")
          (Event.settle (some []))).chart "BTCUSDT" "1d").eff.load.isSome = true ∧
    (runEffect plainBuiltins
        (step plainBuiltins (runEffect plainBuiltins {} "BTCUSDT" "1d")
          (Event.settle (some []))).chart "BTCUSDT" "1d").chart.fetches.length = 1 ∧
    (step plainBuiltins (runEffect plainBuiltins {} "BTCUSDT" "1d")
        (Event.settle none)).chart.cache (cacheKey "BTCUSDT" "1d") = none := by
  refine ⟨rfl, rfl, rfl, rfl, rfl⟩

/-! ## Range resolution -/

theorem RANGES_isSome (range : String) :
    (RANGES range).isSome = true ↔ range ∈ ["live", "1d", "1m", "1y", "5y"] := by
  unfold RANGES
  split_ifs <;> simp_all

theorem mem_rangeKeys (r : String) : r ∈ rangeKeys ↔ (RANGES r).isSome = true := by
  rw [RANGES_isSome]; rfl

theorem step_range_load (b : Builtins) (w : World) (ev : Event) :
    (step b w ev).eff.range = w.eff.range ∧
    ((step b w ev).eff.load = w.eff.load ∨ (step b w ev).eff.load = none) := by
  cases ev with
  | settle response =>
    cases hl : w.eff.load with
    | none =>
      have e : step b w (Event.settle response) = w := by simp only [step, hl]
      rw [e]; exact ⟨rfl, Or.inl hl⟩
    | some ls =>
      simp only [step, hl]
      split <;> simp [connectWs]
  | wsOpen i => simp only [step]; split <;> simp
  | wsMessage i msg => simp only [step]; split <;> simp
  | wsError i =>
    simp only [step]
    cases w.eff.sockets[i]? with
    | none => simp
    | some s => by_cases hc : s = ReadyState.closed <;> simp [hc]
  | wsClose i =>
    simp only [step]
    cases w.eff.sockets[i]? with
    | none => simp
    | some s =>
      by_cases hc : s = ReadyState.closed
      · simp [hc]
      · simp only [hc, if_false]
        split <;> simp
  | timeout j => simp only [step]; split <;> simp [connectWs]
  | cleanup => simp [step]

theorem runEffect_resolves (b : Builtins) (st : ChartState) (symbol r : String)
    (hr : (RANGES r).isSome = true) :
    (runEffect b st symbol r).eff.range = r ∧
    (∃ data, (runEffect b st symbol r).eff.load = some (LoadStart.resolved data)) ∨
      (∃ req, (runEffect b st symbol r).eff.load = some (LoadStart.pending req)) := by
  cases hcfg : RANGES r with
  | none => rw [hcfg] at hr; cases hr
  | some cfg =>
    cases hc : st.cache (cacheKey symbol r) with
    | some data => left; simp [runEffect, loadCandlesStart, hc]
    | none => right; simp [runEffect, loadCandlesStart, hc, hcfg]

theorem act_resolves (b : Builtins) (w : World) (a : Action)
    (h : (RANGES w.eff.range).isSome = true ∧ ¬ w.eff.load = some LoadStart.rejected) :
    (RANGES (act b w a).eff.range).isSome = true ∧
    ¬ (act b w a).eff.load = some LoadStart.rejected := by
  cases a with
  | event ev =>
    obtain ⟨h1, h2⟩ := step_range_load b w ev
    show (RANGES (step b w ev).eff.range).isSome = true ∧ _
    rw [h1]
    refine ⟨h.1, ?_⟩
    show ¬ (step b w ev).eff.load = some LoadStart.rejected
    rcases h2 with h2 | h2
    · rw [h2]; exact h.2
    · rw [h2]; intro hcontra; cases hcontra
  | select r =>
    show (RANGES (selectRange b w r).eff.range).isSome = true ∧
      ¬ (selectRange b w r).eff.load = some LoadStart.rejected
    unfold selectRange
    by_cases hk : r ∈ rangeKeys
    · by_cases hsame : r = w.eff.range
      · rw [if_pos hk, if_pos hsame]; exact h
      · rw [if_pos hk, if_neg hsame]
        have hr := (mem_rangeKeys r).mp hk
        rcases runEffect_resolves b (step b w Event.cleanup).chart w.eff.symbol r hr with
          ⟨h1, data, h2⟩ | ⟨req, h2⟩
        · rw [h1, h2]; exact ⟨hr, fun hcontra => by cases hcontra⟩
        · refine ⟨?_, ?_⟩
          · exact hr
          · rw [h2]; intro hcontra; cases hcontra
    · rw [if_neg hk]; exact h

theorem foldl_act_resolves (b : Builtins) (actions : List Action) (w : World)
    (h : (RANGES w.eff.range).isSome = true ∧ ¬ w.eff.load = some LoadStart.rejected) :
    (RANGES (actions.foldl (act b) w).eff.range).isSome = true ∧
    ¬ (actions.foldl (act b) w).eff.load = some LoadStart.rejected := by
  induction actions generalizing w with
  | nil => exact h
  | cons a as ih => exact ih _ (act_resolves b w a h)

/-- C14: `RANGES` holds a profile exactly for `live`, `1d`, `1m`, `1y` and `5y`,
the keys for which a button exists.  Whatever requests and events follow the
first render, the selected range has a profile and the load is never rejected
for want of one.  A request to select any other identifier changes nothing: the
loading flag, the error message, the requests sent and the published series
are what they were. -/
theorem range_always_resolves (b : Builtins) (symbol : String) (actions : List Action)
    (r : String) :
    (∀ x, (RANGES x).isSome = true ↔ x ∈ ["live", "1d", "1m", "1y", "5y"]) ∧
    (RANGES (actions.foldl (act b) (mount b symbol)).eff.range).isSome = true ∧
    ¬ (actions.foldl (act b) (mount b symbol)).eff.load = some LoadStart.rejected ∧
    (r ∉ ["live", "1d", "1m", "1y", "5y"] →
      selectRange b (actions.foldl (act b) (mount b symbol)) r
        = actions.foldl (act b) (mount b symbol)) := by
  have h0 : (RANGES (mount b symbol).eff.range).isSome = true ∧
      ¬ (mount b symbol).eff.load = some LoadStart.rejected := by
    rcases runEffect_resolves b {} symbol "1d" rfl with ⟨h1, data, h2⟩ | ⟨req, h2⟩
    · exact ⟨rfl, by unfold mount; rw [h2]; intro hcontra; cases hcontra⟩
    · exact ⟨rfl, by unfold mount; rw [h2]; intro hcontra; cases hcontra⟩
  obtain ⟨h1, h2⟩ := foldl_act_resolves b actions (mount b symbol) h0
  refine ⟨RANGES_isSome, h1, h2, ?_⟩
  intro hr
  have hk : r ∉ rangeKeys := hr
  unfold selectRange
  rw [if_neg hk]

/-- C14, after the first render for `BTCUSDT`: a request for `2d` changes
nothing, while the button `1m` raises the loading flag and sends a second
request. -/
theorem range_always_resolves_witness :
    selectRange plainBuiltins (mount plainBuiltins "BTCUSDT") "2d"
      = mount plainBuiltins "BTCUSDT" ∧
    (selectRange plainBuiltins (mount plainBuiltins "BTCUSDT") "1m").chart.loading = true ∧
    (selectRange plainBuiltins (mount plainBuiltins "BTCUSDT") "1m").chart.fetches.length
      = 2 :=
  ⟨(range_always_resolves plainBuiltins "BTCUSDT" [] "2d").2.2.2 (by decide), rfl, rfl⟩

/-! ## Normalisation -/

theorem eraseSma_parseKline (b : Builtins) (d : RawKline) (range : String) :
    eraseSma (parseKline b d range) = parseKline b d range := rfl

/-- C15 as stated fails: a kline whose close is `abc` is normalised, by both
normalizers, to a candle with close `NaN`, and in a batch of two it is kept:
the loaded series has both candles. -/
theorem bad_record_is_not_skipped :
    (parseKline plainBuiltins badKline "1d").close = JsNum.nan ∧
    (parseWsKline plainBuiltins (wsOfKline badKline)).close = JsNum.nan ∧
    (loadCandlesFinish plainBuiltins {} "BTCUSDT" "1d" (some [sampleKline, badKline])).2
      = some (attachSMA [parseKline plainBuiltins sampleKline "1d",
          parseKline plainBuiltins badKline "1d"]) := by
  refine ⟨?_, ?_, rfl⟩ <;> decide

/-- C15 (amended): neither normalizer fails.  A close that does not parse gives
a candle with close `NaN`, body `(NaN, NaN)` and the down colour; a batch is
never shortened, the loaded series has one candle per record, in order, each
the normalisation of its record; and a live message is merged whatever its
fields parse to. -/
theorem normalizers_never_fail (b : Builtins) (st : ChartState) (symbol range : String)
    (raw : List RawKline) (d : RawKline) (k : WsKline) :
    (b.parseFloat d.d4 = JsNum.nan →
      (parseKline b d range).close = JsNum.nan ∧
      (parseKline b d range).body = (JsNum.nan, JsNum.nan) ∧
      (parseKline b d range).color = "#F44336") ∧
    (b.parseFloat k.c = JsNum.nan →
      (parseWsKline b k).close = JsNum.nan ∧
      (parseWsKline b k).body = (JsNum.nan, JsNum.nan) ∧
      (parseWsKline b k).color = "#F44336") ∧
    (∃ data, (loadCandlesFinish b st symbol range (some raw)).2 = some data ∧
      data.length = raw.length ∧
      ∀ i : Nat, data[i]?.map eraseSma = raw[i]?.map fun r => parseKline b r range) ∧
    (onmessage b st (some k)).candles = merge st.candles (parseWsKline b k) := by
  refine ⟨?_, ?_, ⟨_, rfl, ?_, ?_⟩, rfl⟩
  · intro h
    have hmin : ∀ x, JsNum.min x JsNum.nan = JsNum.nan := by intro x; cases x <;> rfl
    have hmax : ∀ x, JsNum.max x JsNum.nan = JsNum.nan := by intro x; cases x <;> rfl
    simp [parseKline, h, hmin, hmax, JsNum.ge, upColor]
  · intro h
    have hmin : ∀ x, JsNum.min x JsNum.nan = JsNum.nan := by intro x; cases x <;> rfl
    have hmax : ∀ x, JsNum.max x JsNum.nan = JsNum.nan := by intro x; cases x <;> rfl
    simp [parseWsKline, h, hmin, hmax, JsNum.ge, upColor]
  · simp [length_attachSMA]
  · intro i
    have := congrArg (fun l => l[i]?) (map_eraseSma_attachSMA (raw.map fun r => parseKline b r range))
    simp only [List.getElem?_map] at this
    rw [this]
    cases raw[i]? <;> simp [eraseSma_parseKline]

/-- C15 (amended), on the kline with close `abc`. -/
theorem normalizers_never_fail_witness :
    (parseKline plainBuiltins badKline "1d").close = JsNum.nan ∧
    (parseKline plainBuiltins badKline "1d").color = "#F44336" :=
  ⟨((normalizers_never_fail plainBuiltins {} "BTCUSDT" "1d" [] badKline (wsOfKline badKline)).1
      (by decide)).1,
   ((normalizers_never_fail plainBuiltins {} "BTCUSDT" "1d" [] badKline (wsOfKline badKline)).1
      (by decide)).2.2⟩

theorem min_fin (a c : ℚ) : JsNum.min (JsNum.fin a) (JsNum.fin c) = JsNum.fin (min a c) := by
  by_cases h : c ≤ a
  · simp [JsNum.min, JsNum.ge, h]
  · have h2 : a ≤ c := le_of_lt (not_le.mp h)
    simp [JsNum.min, JsNum.ge, h, h2]

theorem max_fin (a c : ℚ) : JsNum.max (JsNum.fin a) (JsNum.fin c) = JsNum.fin (max a c) := by
  by_cases h : c ≤ a
  · simp [JsNum.max, JsNum.ge, h]
  · have h2 : a ≤ c := le_of_lt (not_le.mp h)
    simp [JsNum.max, JsNum.ge, h, h2]

theorem ge_fin (a c : ℚ) : JsNum.ge (JsNum.fin a) (JsNum.fin c) = true ↔ c ≤ a := by
  simp [JsNum.ge]

theorem upColor_eq (up : Bool) : upColor up = "#4CAF50" ↔ up = true := by
  cases up <;> simp [upColor]

/-- C16: on the same field values `parseWsKline` gives the candle of
`parseKline` up to the time label.  With open `o`, high `h`, low `l`, close `c`
and volume `v` parsed (open and close not `NaN`) the candle has close `c`, wick
`(l, h)`, body `(min o c, max o c)` whose first component does not exceed the
second, volume `v`, and the up colour exactly when `c >= o`. -/
theorem normalizers_agree (b : Builtins) (d : RawKline) (range : String)
    (o h l c v : JsNum) (ho : b.parseFloat d.d1 = o) (hh : b.parseFloat d.d2 = h)
    (hl : b.parseFloat d.d3 = l) (hc : b.parseFloat d.d4 = c) (hv : b.parseFloat d.d5 = v)
    (hon : o ≠ JsNum.nan) (hcn : c ≠ JsNum.nan) :
    parseWsKline b (wsOfKline d) = { parseKline b d range with time := b.localeTime d.d0 } ∧
    (parseKline b d range).time = formatTime b d.d0 range ∧
    (parseKline b d range).close = c ∧
    (parseKline b d range).wick = (l, h) ∧
    (parseKline b d range).body = (JsNum.min o c, JsNum.max o c) ∧
    JsNum.ge (JsNum.max o c) (JsNum.min o c) = true ∧
    (parseKline b d range).volume = v ∧
    ((parseKline b d range).color = "#4CAF50" ↔ JsNum.ge c o = true) ∧
    (∀ qo qc : ℚ, o = JsNum.fin qo → c = JsNum.fin qc →
      (parseKline b d range).body = (JsNum.fin (min qo qc), JsNum.fin (max qo qc)) ∧
      min qo qc ≤ max qo qc ∧
      ((parseKline b d range).color = "#4CAF50" ↔ qo ≤ qc)) := by
  subst ho hh hl hc hv
  refine ⟨rfl, rfl, rfl, rfl, rfl, ?_, rfl, ?_, ?_⟩
  · cases h1 : b.parseFloat d.d1 <;> cases h2 : b.parseFloat d.d4 <;>
      simp_all [JsNum.min, JsNum.max, JsNum.ge]
    rename_i qo qc
    by_cases hq : qc ≤ qo
    · simp [hq]
    · simp [hq, le_of_lt (not_le.mp hq)]
  · simp [parseKline, upColor_eq]
  · intro qo qc h1 h2
    simp only [parseKline, h1, h2, upColor_eq, min_fin, max_fin, ge_fin]
    exact ⟨trivial, min_le_max, trivial⟩

/-- C16, on the kline with open 10, high 12, low 9, close 11. -/
theorem normalizers_agree_witness :
    (parseKline plainBuiltins sampleKline "1d").close = JsNum.ofNat 11 ∧
    (parseKline plainBuiltins sampleKline "1d").wick = (JsNum.ofNat 9, JsNum.ofNat 12) ∧
    (parseKline plainBuiltins sampleKline "1d").color = "#4CAF50" ∧
    parseWsKline plainBuiltins (wsOfKline sampleKline)
      = { parseKline plainBuiltins sampleKline "1d" with time := plainBuiltins.localeTime 0 } := by
  have h := normalizers_agree plainBuiltins sampleKline "1d" (JsNum.ofNat 10) (JsNum.ofNat 12)
    (JsNum.ofNat 9) (JsNum.ofNat 11) (JsNum.ofNat 100) (by decide) (by decide) (by decide)
    (by decide) (by decide) (by simp [JsNum.ofNat]) (by simp [JsNum.ofNat])
  refine ⟨h.2.2.1, h.2.2.2.1, ?_, h.1⟩
  rw [h.2.2.2.2.2.2.2.1]
  simp [JsNum.ofNat, JsNum.ge]
  norm_num

/-! ## Subscription and teardown -/

theorem length_modifyLast {α : Type} (f : α → α) (l : List α) :
    (modifyLast f l).length = l.length := by
  induction l with
  | nil => rfl
  | cons a t ih =>
    cases t with
    | nil => rfl
    | cons b t => simp [modifyLast, ih]

theorem getElem?_modifyLast {α : Type} (f : α → α) (l : List α) (i : Nat) :
    (modifyLast f l)[i]? = if i + 1 = l.length then l[i]?.map f else l[i]? := by
  induction l generalizing i with
  | nil => simp [modifyLast]
  | cons a t ih =>
    cases t with
    | nil =>
      cases i with
      | zero => simp [modifyLast]
      | succ i => simp [modifyLast]
    | cons b t =>
      cases i with
      | zero => simp [modifyLast]
      | succ i =>
        simp only [modifyLast, List.getElem?_cons_succ, ih, List.length_cons]
        by_cases h : i + 1 = t.length + 1
        · simp [h]
        · have : ¬ (i + 1 + 1 = t.length + 1 + 1) := by omega
          simp [h, this]

theorem closeSocket_quiet (s : ReadyState) :
    closeSocket s = ReadyState.closing ∨ closeSocket s = ReadyState.closed := by
  cases s <;> simp [closeSocket]

theorem clearTimer_ne_pending (t : TimerState) : clearTimer t ≠ TimerState.pending := by
  cases t <;> simp [clearTimer]

theorem bootSettle_inactive (cfg : RangeCfg) (st : ChartState) (result : Option (List Candle)) :
    bootSettle cfg false st result = (st, false) := by
  cases result <;> simp [bootSettle, onLoadFailed, onLoaded]

theorem bootChain_inactive (range : String) (st : ChartState) (result : Option (List Candle)) :
    bootChain range false st result = (st, false) := by
  unfold bootChain
  cases RANGES range with
  | some cfg => exact bootSettle_inactive cfg st result
  | none =>
    by_cases hk : range ∈ objectPrototypeKeys
    · simp only [hk, if_true]; exact bootSettle_inactive _ st result
    · cases result <;> simp [hk, onLoadFailed, onLoaded]

theorem loadCandlesFinish_frame (b : Builtins) (st : ChartState) (symbol range : String)
    (response : Option (List RawKline)) :
    (loadCandlesFinish b st symbol range response).1.candles = st.candles ∧
    (loadCandlesFinish b st symbol range response).1.priceChange = st.priceChange ∧
    (loadCandlesFinish b st symbol range response).1.pctChange = st.pctChange ∧
    (loadCandlesFinish b st symbol range response).1.error = st.error ∧
    (loadCandlesFinish b st symbol range response).1.loading = st.loading ∧
    (loadCandlesFinish b st symbol range response).1.fetches = st.fetches := by
  cases response <;> exact ⟨rfl, rfl, rfl, rfl, rfl, rfl⟩

theorem settle_inactive (b : Builtins) (w : World) (response : Option (List RawKline))
    (ha : w.eff.active = false) :
    (step b w (Event.settle response)).chart.candles = w.chart.candles ∧
    (step b w (Event.settle response)).chart.priceChange = w.chart.priceChange ∧
    (step b w (Event.settle response)).chart.pctChange = w.chart.pctChange ∧
    (step b w (Event.settle response)).chart.error = w.chart.error ∧
    (step b w (Event.settle response)).chart.fetches = w.chart.fetches ∧
    (step b w (Event.settle response)).eff.sockets = w.eff.sockets ∧
    (step b w (Event.settle response)).eff.timers = w.eff.timers ∧
    (step b w (Event.settle response)).eff.active = false := by
  simp only [step]
  cases hl : w.eff.load with
  | none => exact ⟨rfl, rfl, rfl, rfl, rfl, rfl, rfl, ha⟩
  | some ls =>
    simp only [ha, bootChain_inactive]
    cases ls with
    | resolved data => exact ⟨rfl, rfl, rfl, rfl, rfl, rfl, rfl, rfl⟩
    | rejected => exact ⟨rfl, rfl, rfl, rfl, rfl, rfl, rfl, rfl⟩
    | pending req =>
      obtain ⟨h1, h2, h3, h4, -, h6⟩ :=
        loadCandlesFinish_frame b w.chart w.eff.symbol w.eff.range response
      exact ⟨h1, h2, h3, h4, h6, rfl, rfl, rfl⟩

theorem quiet_step (b : Builtins) (w : World) (ev : Event) (hq : Quiet w.eff) :
    Quiet (step b w ev).eff ∧
    (step b w ev).chart.candles = w.chart.candles ∧
    (step b w ev).eff.sockets.length = w.eff.sockets.length ∧
    (step b w ev).eff.timers = w.eff.timers := by
  obtain ⟨ha, hs, ht⟩ := hq
  cases ev with
  | settle response =>
    obtain ⟨h1, -, -, -, -, h6, h7, h8⟩ := settle_inactive b w response ha
    refine ⟨⟨h8, ?_, ?_⟩, h1, by rw [h6], h7⟩
    · rw [h6]; exact hs
    · rw [h7]; exact ht
  | wsOpen i =>
    have : ¬ (w.eff.sockets[i]? = some ReadyState.connecting) := by
      intro h
      rcases hs i _ h with h' | h' <;> cases h'
    have e : step b w (Event.wsOpen i) = w := by simp only [step, this, if_false]
    rw [e]
    exact ⟨⟨ha, hs, ht⟩, rfl, rfl, rfl⟩
  | wsMessage i msg =>
    have : ¬ (w.eff.sockets[i]? = some ReadyState.opened) := by
      intro h
      rcases hs i _ h with h' | h' <;> cases h'
    have e : step b w (Event.wsMessage i msg) = w := by simp only [step, this, if_false]
    rw [e]
    exact ⟨⟨ha, hs, ht⟩, rfl, rfl, rfl⟩
  | wsError i =>
    have e : (step b w (Event.wsError i)).eff = w.eff ∧
        (step b w (Event.wsError i)).chart.candles = w.chart.candles := by
      simp only [step]
      cases w.eff.sockets[i]? with
      | none => simp
      | some s => by_cases hc : s = ReadyState.closed <;> simp [hc]
    rw [e.1, e.2]
    exact ⟨⟨ha, hs, ht⟩, rfl, rfl, rfl⟩
  | wsClose i =>
    have e : (step b w (Event.wsClose i)).chart = w.chart ∧
        (step b w (Event.wsClose i)).eff.active = w.eff.active ∧
        (step b w (Event.wsClose i)).eff.timers = w.eff.timers ∧
        ((step b w (Event.wsClose i)).eff.sockets = w.eff.sockets ∨
          (step b w (Event.wsClose i)).eff.sockets = w.eff.sockets.set i ReadyState.closed) := by
      simp only [step]
      cases w.eff.sockets[i]? with
      | none => simp
      | some s => by_cases hc : s = ReadyState.closed <;> simp [hc, ha]
    obtain ⟨e1, e2, e3, e4⟩ := e
    rcases e4 with e4 | e4
    · refine ⟨⟨by rw [e2]; exact ha, by rw [e4]; exact hs, by rw [e3]; exact ht⟩, ?_, ?_, e3⟩
      · rw [e1]
      · rw [e4]
    · refine ⟨⟨by rw [e2]; exact ha, ?_, by rw [e3]; exact ht⟩, by rw [e1],
        by rw [e4]; simp, e3⟩
      rw [e4]
      intro i' s' h'
      rw [List.getElem?_set] at h'
      by_cases hii : i = i'
      · rw [if_pos hii] at h'
        split at h'
        · cases h'; exact Or.inr rfl
        · cases h'
      · rw [if_neg hii] at h'
        exact hs i' s' h'
  | timeout j =>
    have : ¬ (w.eff.timers[j]? = some TimerState.pending) := fun h => ht j _ h rfl
    have e : step b w (Event.timeout j) = w := by simp only [step, this, if_false]
    rw [e]
    exact ⟨⟨ha, hs, ht⟩, rfl, rfl, rfl⟩
  | cleanup =>
    show Quiet { w.eff with
        active := false
        timers := modifyLast clearTimer w.eff.timers
        sockets := modifyLast closeSocket w.eff.sockets } ∧
      w.chart.candles = w.chart.candles ∧
      (modifyLast closeSocket w.eff.sockets).length = w.eff.sockets.length ∧
      modifyLast clearTimer w.eff.timers = w.eff.timers
    refine ⟨⟨rfl, ?_, ?_⟩, rfl, length_modifyLast _ _, ?_⟩
    · intro i s h
      simp only [getElem?_modifyLast] at h
      split at h
      · cases h0 : w.eff.sockets[i]? with
        | none => simp [h0] at h
        | some s0 =>
          simp [h0] at h
          rw [← h]; exact closeSocket_quiet s0
      · exact hs i s h
    · intro j t h
      simp only [getElem?_modifyLast] at h
      split at h
      · cases h0 : w.eff.timers[j]? with
        | none => simp [h0] at h
        | some t0 =>
          simp [h0] at h
          rw [← h]; exact clearTimer_ne_pending t0
      · exact ht j t h
    · apply List.ext_getElem?
      intro j
      simp only [getElem?_modifyLast]
      split
      · cases h0 : w.eff.timers[j]? with
        | none => rfl
        | some t0 =>
          have := ht j t0 h0
          cases t0 <;> simp_all [clearTimer]
      · rfl

theorem quiet_run (b : Builtins) (events : List Event) (w : World) (hq : Quiet w.eff) :
    Quiet (run b w events).eff ∧
    (run b w events).chart.candles = w.chart.candles ∧
    (run b w events).eff.sockets.length = w.eff.sockets.length ∧
    (run b w events).eff.timers = w.eff.timers := by
  induction events generalizing w with
  | nil => exact ⟨hq, rfl, rfl, rfl⟩
  | cons ev evs ih =>
    obtain ⟨h1, h2, h3, h4⟩ := quiet_step b w ev hq
    obtain ⟨k1, k2, k3, k4⟩ := ih (step b w ev) h1
    exact ⟨k1, by rw [← h2]; exact k2, by rw [← h3]; exact k3, by rw [← h4]; exact k4⟩

theorem oneSocket_runEffect (b : Builtins) (st : ChartState) (symbol range : String) :
    OneSocket (runEffect b st symbol range).eff := by
  refine ⟨?_, ?_, ?_⟩
  · intro i s h; simp [runEffect] at h
  · intro j h; simp [runEffect] at h
  · intro _; exact ⟨rfl, rfl⟩

theorem oneSocket_step (b : Builtins) (w : World) (ev : Event) (hinv : OneSocket w.eff) :
    OneSocket (step b w ev).eff := by
  obtain ⟨h1, h2, h3⟩ := hinv
  cases ev with
  | settle response =>
    cases hl : w.eff.load with
    | none =>
      have e : step b w (Event.settle response) = w := by simp only [step, hl]
      rw [e]; exact ⟨h1, h2, h3⟩
    | some ls =>
      obtain ⟨hs, ht⟩ := h3 (by rw [hl]; rfl)
      have e : (step b w (Event.settle response)).eff.load = none ∧
          (step b w (Event.settle response)).eff.timers = [] ∧
          (step b w (Event.settle response)).eff.sockets.length ≤ 1 := by
        simp only [step, hl]
        split <;> simp [connectWs, hs, ht]
      obtain ⟨e1, e2, e3⟩ := e
      refine ⟨?_, ?_, ?_⟩
      · intro i s _ hlt; omega
      · intro j hj; rw [e2] at hj; simp at hj
      · intro hsome; rw [e1] at hsome; cases hsome
  | wsOpen i =>
    by_cases hc : w.eff.sockets[i]? = some ReadyState.connecting
    · have e : (step b w (Event.wsOpen i)).eff
          = { w.eff with sockets := w.eff.sockets.set i ReadyState.opened } := by
        simp only [step, hc, if_true]
      rw [e]
      have hlast : ¬ (i + 1 < w.eff.sockets.length) := by
        intro hlt
        have := h1 i _ hc hlt
        cases this
      have hnop : ∀ j : Nat, w.eff.timers[j]? ≠ some TimerState.pending := by
        intro j hj
        have := (h2 j hj).2 i _ hc
        cases this
      refine ⟨?_, ?_, ?_⟩
      · intro i' s h hlt
        simp only [List.length_set] at hlt
        have hne : i ≠ i' := by
          intro heq; subst heq; exact hlast hlt
        simp only [List.getElem?_set_ne hne] at h
        exact h1 i' s h hlt
      · intro j hj
        exact absurd hj (hnop j)
      · intro hsome
        have := (h3 hsome).1
        rw [this] at hc
        simp at hc
    · have e : step b w (Event.wsOpen i) = w := by simp only [step, hc, if_false]
      rw [e]; exact ⟨h1, h2, h3⟩
  | wsMessage i msg =>
    have e : (step b w (Event.wsMessage i msg)).eff = w.eff := by
      simp only [step]
      split <;> rfl
    rw [e]; exact ⟨h1, h2, h3⟩
  | wsError i =>
    have e : (step b w (Event.wsError i)).eff = w.eff := by
      simp only [step]
      cases w.eff.sockets[i]? with
      | none => simp
      | some s => by_cases hc : s = ReadyState.closed <;> simp [hc]
    rw [e]; exact ⟨h1, h2, h3⟩
  | wsClose i =>
    cases hi : w.eff.sockets[i]? with
    | none =>
      have e : step b w (Event.wsClose i) = w := by simp only [step, hi]
      rw [e]; exact ⟨h1, h2, h3⟩
    | some s =>
      by_cases hc : s = ReadyState.closed
      · have e : step b w (Event.wsClose i) = w := by simp only [step, hi, hc, if_true]
        rw [e]; exact ⟨h1, h2, h3⟩
      · have hilt : i < w.eff.sockets.length := by
          by_contra hge
          rw [List.getElem?_eq_none (by omega)] at hi
          cases hi
        have hlast : ¬ (i + 1 < w.eff.sockets.length) := fun hlt => hc (h1 i s hi hlt)
        have hnop : ∀ j : Nat, w.eff.timers[j]? ≠ some TimerState.pending := by
          intro j hj
          exact hc ((h2 j hj).2 i s hi)
        have hload : w.eff.load.isSome = true → False := by
          intro hsome
          have := (h3 hsome).1
          rw [this] at hi
          simp at hi
        have hall : ∀ (i' : Nat) (s' : ReadyState),
            (w.eff.sockets.set i ReadyState.closed)[i']? = some s' → s' = ReadyState.closed := by
          intro i' s' h'
          rw [List.getElem?_set] at h'
          by_cases hii : i = i'
          · rw [if_pos hii, if_pos hilt] at h'
            cases h'; rfl
          · rw [if_neg hii] at h'
            have hlt' : i' < w.eff.sockets.length := by
              by_contra hge
              rw [List.getElem?_eq_none (by omega)] at h'
              cases h'
            exact h1 i' s' h' (by omega)
        have e : (step b w (Event.wsClose i)).eff.sockets = w.eff.sockets.set i ReadyState.closed ∧
            (step b w (Event.wsClose i)).eff.load = w.eff.load ∧
            ((step b w (Event.wsClose i)).eff.timers = w.eff.timers ∨
              (step b w (Event.wsClose i)).eff.timers = w.eff.timers ++ [TimerState.pending]) := by
          simp only [step, hi, hc, if_false]
          split <;> simp
        obtain ⟨e1, e2, e3⟩ := e
        refine ⟨?_, ?_, ?_⟩
        · intro i' s' h' _
          rw [e1] at h'
          exact hall i' s' h'
        · intro j hj
          rcases e3 with e3 | e3
          · rw [e3] at hj
            exact absurd hj (hnop j)
          · rw [e3] at hj ⊢
            have hjl : j = w.eff.timers.length := by
              by_contra hne
              by_cases hjlt : j < w.eff.timers.length
              · rw [List.getElem?_append_left hjlt] at hj
                exact hnop j hj
              · rw [List.getElem?_append_right (by omega)] at hj
                have : j - w.eff.timers.length ≠ 0 := by omega
                cases hk : j - w.eff.timers.length with
                | zero => exact this hk
                | succ k => rw [hk] at hj; simp at hj
            refine ⟨by simp [hjl], ?_⟩
            intro i' s' h'
            rw [e1] at h'
            exact hall i' s' h'
        · intro hsome
          rw [e2] at hsome
          exact absurd hsome (fun h => hload h)
  | timeout j =>
    by_cases hp : w.eff.timers[j]? = some TimerState.pending
    · obtain ⟨hjl, hclosed⟩ := h2 j hp
      have e : (step b w (Event.timeout j)).eff
          = connectWs { w.eff with timers := w.eff.timers.set j TimerState.fired } := by
        simp only [step, hp, if_true]
      rw [e]
      refine ⟨?_, ?_, ?_⟩
      · intro i s h hlt
        simp only [connectWs, List.length_append, List.length_singleton] at hlt h
        rw [List.getElem?_append_left (by omega)] at h
        exact hclosed i s h
      · intro j' hj'
        simp only [connectWs] at hj'
        rw [List.getElem?_set] at hj'
        by_cases hjj : j = j'
        · rw [if_pos hjj] at hj'
          split at hj' <;> cases hj'
        · rw [if_neg hjj] at hj'
          have := (h2 j' hj').1
          omega
      · intro hsome
        have hsome' : w.eff.load.isSome = true := hsome
        have := (h3 hsome').2
        rw [this] at hp
        simp at hp
    · have e : step b w (Event.timeout j) = w := by simp only [step, hp, if_false]
      rw [e]; exact ⟨h1, h2, h3⟩
  | cleanup =>
    show OneSocket { w.eff with
        active := false
        timers := modifyLast clearTimer w.eff.timers
        sockets := modifyLast closeSocket w.eff.sockets }
    refine ⟨?_, ?_, ?_⟩
    · intro i s h hlt
      simp only [length_modifyLast] at hlt
      simp only [getElem?_modifyLast] at h
      rw [if_neg (by omega)] at h
      exact h1 i s h hlt
    · intro j hj
      simp only [getElem?_modifyLast] at hj
      exfalso
      split at hj
      · cases h0 : w.eff.timers[j]? with
        | none => simp [h0] at hj
        | some t0 =>
          simp [h0] at hj
          exact clearTimer_ne_pending t0 hj
      · have := (h2 j hj).1
        omega
    · intro hsome
      obtain ⟨hs, ht⟩ := h3 hsome
      exact ⟨by simp [hs, modifyLast], by simp [ht, modifyLast]⟩

theorem oneSocket_run (b : Builtins) (events : List Event) (w : World) (hinv : OneSocket w.eff) :
    OneSocket (run b w events).eff := by
  induction events generalizing w with
  | nil => exact hinv
  | cons ev evs ih => exact ih _ (oneSocket_step b w ev hinv)

theorem quiet_cleanup (b : Builtins) (w : World) (hinv : OneSocket w.eff) :
    Quiet (step b w Event.cleanup).eff := by
  obtain ⟨h1, h2, -⟩ := hinv
  show Quiet { w.eff with
      active := false
      timers := modifyLast clearTimer w.eff.timers
      sockets := modifyLast closeSocket w.eff.sockets }
  refine ⟨rfl, ?_, ?_⟩
  · intro i s h
    simp only [getElem?_modifyLast] at h
    split at h
    · cases h0 : w.eff.sockets[i]? with
      | none => simp [h0] at h
      | some s0 =>
        simp [h0] at h
        rw [← h]; exact closeSocket_quiet s0
    · have hlt : i < w.eff.sockets.length := by
        by_contra hge
        rw [List.getElem?_eq_none (by omega)] at h
        cases h
      exact Or.inr (h1 i s h (by omega))
  · intro j t h
    simp only [getElem?_modifyLast] at h
    split at h
    · cases h0 : w.eff.timers[j]? with
      | none => simp [h0] at h
      | some t0 =>
        simp [h0] at h
        rw [← h]; exact clearTimer_ne_pending t0
    · intro hp
      rw [hp] at h
      have := (h2 j h).1
      omega

/-- A run on the live range in which the subscriber works before the teardown:
the load answers one kline and opens a socket, a tick is merged, the socket
closes and the timer reconnects; after the cleanup a message on the second
socket changes nothing. -/
theorem subscriber_trace :
    (run plainBuiltins (runEffect plainBuiltins {} "BTCUSDT" "live")
      [Event.settle (some [sampleKline]), Event.wsOpen 0,
       Event.wsMessage 0 (some (wsOfKline badKline))]).chart.candles.length = 2 ∧
    (run plainBuiltins (runEffect plainBuiltins {} "BTCUSDT" "live")
      [Event.settle (some [sampleKline]), Event.wsOpen 0,
       Event.wsMessage 0 (some (wsOfKline badKline)), Event.wsClose 0, Event.timeout 0,
       Event.wsOpen 1]).eff.sockets = [ReadyState.closed, ReadyState.opened] ∧
    (run plainBuiltins (runEffect plainBuiltins {} "BTCUSDT" "live")
      [Event.settle (some [sampleKline]), Event.wsOpen 0,
       Event.wsMessage 0 (some (wsOfKline badKline)), Event.wsClose 0, Event.timeout 0,
       Event.wsOpen 1, Event.cleanup,
       Event.wsMessage 1 (some (wsOfKline sampleKline))]).chart.candles.length = 2 := by
  refine ⟨?_, ?_, ?_⟩ <;> rfl

/-- C17: after the cleanup of a run, whatever happened before and whatever
events follow, the published series stays the one at the cleanup and no
further socket is built: a message event changes nothing (no socket of the run
is open any more), a close event schedules no timer, no timer is pending and an
expiring timer opens nothing. -/
theorem teardown_stops_subscriber (b : Builtins) (st : ChartState) (symbol range : String)
    (before after : List Event) (i j : Nat) (msg : Option WsKline) :
    (tornDown b st symbol range before).chart
      = (run b (runEffect b st symbol range) before).chart ∧
    (run b (tornDown b st symbol range before) after).chart.candles
      = (tornDown b st symbol range before).chart.candles ∧
    (run b (tornDown b st symbol range before) after).eff.sockets.length
      = (tornDown b st symbol range before).eff.sockets.length ∧
    step b (run b (tornDown b st symbol range before) after) (Event.wsMessage i msg)
      = run b (tornDown b st symbol range before) after ∧
    (step b (run b (tornDown b st symbol range before) after) (Event.wsClose i)).eff.timers
      = (run b (tornDown b st symbol range before) after).eff.timers ∧
    (run b (tornDown b st symbol range before) after).eff.timers[j]? ≠ some TimerState.pending ∧
    step b (run b (tornDown b st symbol range before) after) (Event.timeout j)
      = run b (tornDown b st symbol range before) after := by
  have hinv : OneSocket (run b (runEffect b st symbol range) before).eff :=
    oneSocket_run b before _ (oneSocket_runEffect b st symbol range)
  have hq : Quiet (tornDown b st symbol range before).eff := quiet_cleanup b _ hinv
  obtain ⟨hq2, hc, hl, -⟩ := quiet_run b after _ hq
  have hq2' := hq2
  obtain ⟨-, hs, ht⟩ := hq2
  have hmsg : ¬ ((run b (tornDown b st symbol range before) after).eff.sockets[i]?
      = some ReadyState.opened) := by
    intro h
    rcases hs i _ h with h' | h' <;> cases h'
  have htm : ¬ ((run b (tornDown b st symbol range before) after).eff.timers[j]?
      = some TimerState.pending) := fun h => ht j _ h rfl
  refine ⟨rfl, hc, hl, ?_, ?_, htm, ?_⟩
  · simp only [step, hmsg, if_false]
  · exact (quiet_step b _ (Event.wsClose i) hq2').2.2.2
  · simp only [step, htm, if_false]

/-- C18: the cleanup leaves the component state as it is, and when the load of
the torn-down run settles afterwards, with an answer or with a failure, the
series, `priceChange`, `pctChange` and the error message are unchanged and no
socket or timer is created. -/
theorem superseded_load_is_discarded (b : Builtins) (w : World)
    (response : Option (List RawKline)) :
    (step b w Event.cleanup).chart = w.chart ∧
    (step b (step b w Event.cleanup) (Event.settle response)).chart.candles
      = w.chart.candles ∧
    (step b (step b w Event.cleanup) (Event.settle response)).chart.priceChange
      = w.chart.priceChange ∧
    (step b (step b w Event.cleanup) (Event.settle response)).chart.pctChange
      = w.chart.pctChange ∧
    (step b (step b w Event.cleanup) (Event.settle response)).chart.error
      = w.chart.error ∧
    (step b (step b w Event.cleanup) (Event.settle response)).eff.sockets
      = (step b w Event.cleanup).eff.sockets ∧
    (step b (step b w Event.cleanup) (Event.settle response)).eff.timers
      = (step b w Event.cleanup).eff.timers := by
  obtain ⟨h1, h2, h3, h4, -, h6, h7, -⟩ :=
    settle_inactive b (step b w Event.cleanup) response rfl
  exact ⟨rfl, h1, h2, h3, h4, h6, h7⟩

/-! ## The wallet endpoint -/

theorem filterValid_eq (holdings : List (Option PostedHolding)) :
    filterValid holdings =
      if holdings.all Option.isSome then some ((holdings.filterMap id).filter validSymbol)
      else none := by
  induction holdings with
  | nil => rfl
  | cons e rest ih =>
    cases e with
    | none => simp [filterValid]
    | some h =>
      simp only [filterValid, ih, List.all_cons, Option.isSome_some, Bool.true_and,
        List.filterMap_cons_some (rfl : id (some h) = some h)]
      by_cases hall : rest.all Option.isSome = true
      · by_cases hv : validSymbol h = true
        · simp [hall, hv]
        · simp [hall, hv]
      · simp [hall]

theorem cleanAmount_spec (x : JsNum) :
    JsNum.max (JsNum.fin 0) (orZero x) ≠ JsNum.nan ∧
    JsNum.ge (JsNum.max (JsNum.fin 0) (orZero x)) (JsNum.fin 0) = true ∧
    (x = JsNum.nan → JsNum.max (JsNum.fin 0) (orZero x) = JsNum.fin 0) ∧
    (x = JsNum.negInf → JsNum.max (JsNum.fin 0) (orZero x) = JsNum.fin 0) ∧
    (x = JsNum.posInf → JsNum.max (JsNum.fin 0) (orZero x) = JsNum.posInf) ∧
    (∀ q : ℚ, x = JsNum.fin q → JsNum.max (JsNum.fin 0) (orZero x) = JsNum.fin (max 0 q)) := by
  cases x with
  | nan => simp [orZero, JsNum.max, JsNum.ge]
  | posInf => simp [orZero, JsNum.max, JsNum.ge]
  | negInf => simp [orZero, JsNum.max, JsNum.ge]
  | fin q =>
    have hz : orZero (JsNum.fin q) = JsNum.fin q := by
      by_cases h : q = 0 <;> simp [orZero, h]
    rw [hz, max_fin]
    simp [ge_fin]

/-- C19: the whitelist has ten symbols; when no element is `null` the saved
list is the posted entries with a whitelisted symbol, in order, each as
`{ symbol, amount }` with `amount = Math.max(0, parseFloat(h.amount) || 0)` (an
element that is `null` makes the handler throw and nothing is saved); every
saved entry has a whitelisted symbol and an amount that is a number `>= 0`;
an amount that parses to `NaN`, to a negative number or to `-Infinity` is saved
as 0, any other as parsed. -/
theorem sanitized_spec (b : Builtins) (holdings : List (Option PostedHolding)) :
    VALID_SYMBOLS.length = 10 ∧
    (sanitized b holdings =
      if holdings.all Option.isSome then
        some (((holdings.filterMap id).filter validSymbol).map fun h =>
          { symbol := h.symbol
            amount := JsNum.max (JsNum.fin 0) (orZero (b.parseFloat h.amount)) })
      else none) ∧
    (∀ h : PostedHolding, validSymbol h = true ↔ ∃ s, s ∈ VALID_SYMBOLS ∧ h.symbol = some s) ∧
    (∀ saved, sanitized b holdings = some saved → ∀ s ∈ saved,
      (∃ sym, sym ∈ VALID_SYMBOLS ∧ s.symbol = some sym) ∧
      s.amount ≠ JsNum.nan ∧ JsNum.ge s.amount (JsNum.fin 0) = true) ∧
    (∀ x : JsNum,
      (x = JsNum.nan → JsNum.max (JsNum.fin 0) (orZero x) = JsNum.fin 0) ∧
      (x = JsNum.negInf → JsNum.max (JsNum.fin 0) (orZero x) = JsNum.fin 0) ∧
      (x = JsNum.posInf → JsNum.max (JsNum.fin 0) (orZero x) = JsNum.posInf) ∧
      (∀ q : ℚ, x = JsNum.fin q →
        JsNum.max (JsNum.fin 0) (orZero x) = JsNum.fin (max 0 q))) := by
  have hvalid : ∀ h : PostedHolding,
      validSymbol h = true ↔ ∃ s, s ∈ VALID_SYMBOLS ∧ h.symbol = some s := by
    intro h
    unfold validSymbol
    cases h.symbol with
    | none => simp
    | some s => simp
  have heq : sanitized b holdings =
      if holdings.all Option.isSome then
        some (((holdings.filterMap id).filter validSymbol).map fun h =>
          { symbol := h.symbol
            amount := JsNum.max (JsNum.fin 0) (orZero (b.parseFloat h.amount)) })
      else none := by
    unfold sanitized
    rw [filterValid_eq]
    by_cases hall : holdings.all Option.isSome = true <;> simp [hall]
  refine ⟨rfl, heq, hvalid, ?_, fun x => (cleanAmount_spec x).2.2⟩
  intro saved hs s hmem
  rw [heq] at hs
  by_cases hall : holdings.all Option.isSome = true
  · rw [if_pos hall] at hs
    cases hs
    rw [List.mem_map] at hmem
    obtain ⟨h, hh, rfl⟩ := hmem
    rw [List.mem_filter] at hh
    exact ⟨(hvalid h).mp hh.2, (cleanAmount_spec _).1, (cleanAmount_spec _).2.1⟩
  · rw [if_neg hall] at hs
    cases hs

/-- C19, on four posted entries: the unknown symbol and the entry without a
symbol are dropped, the amount `abc` is saved as 0. -/
theorem sanitized_spec_witness :
    sanitized plainBuiltins
      [some { symbol := some "BTCUSDT", amount := "2" },
       some { symbol := some "FAKEUSDT", amount := "5" },
       some { symbol := none, amount := "7" },
       some { symbol := some "ETHUSDT", amount := "abc" }]
      = some [{ symbol := some "BTCUSDT", amount := JsNum.fin 2 },
              { symbol := some "ETHUSDT", amount := JsNum.fin 0 }] := by
  rw [(sanitized_spec plainBuiltins _).2.1]
  have h2 : plainBuiltins.parseFloat "2" = JsNum.fin 2 := by
    have : plainBuiltins.parseFloat "2" = JsNum.ofNat 2 := by decide
    rw [this]; simp [JsNum.ofNat]
  have h3 : plainBuiltins.parseFloat "abc" = JsNum.nan := by decide
  have hm2 := (cleanAmount_spec (JsNum.fin 2)).2.2.2.2.2 2 rfl
  have hm0 := (cleanAmount_spec JsNum.nan).2.2.1 rfl
  have hmax : max (0 : ℚ) 2 = 2 := by norm_num
  simp [validSymbol, VALID_SYMBOLS, h2, h3, hm2, hm0, hmax]

/-! ## The long average on the live range -/

theorem sma25_attachSMA_short (l : List Candle) (hl : l.length < 25) (c : Candle)
    (hc : c ∈ attachSMA l) : c.sma25 = some none := by
  rw [List.mem_iff_getElem?] at hc
  obtain ⟨i, hi⟩ := hc
  rw [getElem?_attachSMA] at hi
  cases hli : l[i]? with
  | none => simp [hli] at hi
  | some x =>
    have hlt : i < l.length := by
      by_contra hge
      rw [List.getElem?_eq_none (by omega)] at hli
      cases hli
    rw [hli, getElem?_computeSMA l 25 i hlt, if_pos (by omega)] at hi
    simp at hi
    rw [← hi]

theorem merge_keeps_sma25_absent (s : List Candle) (c : Candle) (hlen : s.length ≤ 20)
    (hs : ∀ x ∈ s, x.sma25 = none ∨ x.sma25 = some none) (hc : c.sma25 = none) :
    (merge s c).length ≤ 20 ∧ ∀ x ∈ merge s c, x.sma25 = none ∨ x.sma25 = some none := by
  refine ⟨length_merge_le s c 20 (le_refl 20) hlen, ?_⟩
  intro x hx
  cases hl : s.getLast? with
  | none =>
    rw [merge_new s c (by simp [hl])] at hx
    exact Or.inr (sma25_attachSMA_short _ (by simp; omega) x hx)
  | some last =>
    by_cases ht : last.time = c.time
    · rw [merge_same s c last hl ht, List.mem_append] at hx
      rcases hx with hx | hx
      · exact hs x (List.mem_of_mem_dropLast hx)
      · rw [List.mem_singleton] at hx
        rw [hx]; exact Or.inl hc
    · rw [merge_new s c (by intro l hl2; rw [hl] at hl2; cases hl2; exact ht)] at hx
      exact Or.inr (sma25_attachSMA_short _ (by simp; omega) x hx)

theorem foldl_onmessage_sma25 (b : Builtins) (msgs : List (Option WsKline)) (st : ChartState)
    (hlen : st.candles.length ≤ 20)
    (hs : ∀ x ∈ st.candles, x.sma25 = none ∨ x.sma25 = some none) :
    ∀ x ∈ (msgs.foldl (onmessage b) st).candles, x.sma25 = none ∨ x.sma25 = some none := by
  induction msgs generalizing st with
  | nil => simpa using hs
  | cons m ms ih =>
    rw [List.foldl_cons]
    cases m with
    | none => exact ih st hlen hs
    | some k =>
      have h := merge_keeps_sma25_absent st.candles (parseWsKline b k) hlen hs rfl
      exact ih _ h.1 h.2

/-- C20: a live series loaded from at most 20 klines has `sma25 = null` on
every candle, and after any sequence of live messages every candle of the
series has `sma25` either `null` or missing. -/
theorem live_sma25_absent (b : Builtins) (st : ChartState) (raw : List RawKline)
    (msgs : List (Option WsKline)) (hraw : raw.length ≤ 20) :
    (∀ c ∈ attachSMA (raw.map fun d => parseKline b d "live"), c.sma25 = some none) ∧
    ∀ c ∈ (msgs.foldl (onmessage b)
        { st with candles := attachSMA (raw.map fun d => parseKline b d "live") }).candles,
      c.sma25 = none ∨ c.sma25 = some none := by
  have h1 : ∀ c ∈ attachSMA (raw.map fun d => parseKline b d "live"), c.sma25 = some none :=
    fun c hc => sma25_attachSMA_short _ (by simp; omega) c hc
  refine ⟨h1, ?_⟩
  apply foldl_onmessage_sma25
  · simp [length_attachSMA]; omega
  · intro x hx
    exact Or.inr (h1 x hx)

/-- C20, on one loaded kline and two live messages. -/
theorem live_sma25_absent_witness :
    [sampleKline].length ≤ 20 ∧ ∀ c ∈ ([some (wsOfKline sampleKline), some (wsOfKline badKline)].foldl
        (onmessage plainBuiltins)
        { ({} : ChartState) with
          candles := attachSMA ([sampleKline].map fun d => parseKline plainBuiltins d "live") }
        ).candles,
      c.sma25 = none ∨ c.sma25 = some none :=
  ⟨by decide, (live_sma25_absent plainBuiltins {} [sampleKline]
    [some (wsOfKline sampleKline), some (wsOfKline badKline)] (by decide)).2⟩

end Crypi
